import Mathlib

/-!
A shallow embedding of the FilterX scope/variable subsystem of syslog-ng
(lib/filterx/filterx-scope.c and lib/filterx/expr-message-ref.c), together with
theorems about its variable table, copy-on-write cloning, lazy field binding and
record synchronisation.

Values (FilterXObject) are external to this subsystem; they are modelled as
reference-counted cells in an explicit heap, so that cloning and aliasing are
observable.  Records (LogMessage) are modelled as association lists from field
handles to typed byte values.
-/

namespace Filterx

/- Field handles (Nat in the source: opaque, totally ordered identifiers) and
heap addresses of reference-counted FilterXObject values are both plain naturals. -/

/-- Modelled from the spec: the Value contract.  A FilterXObject is external to the
scope subsystem, which only observes whether the value is mutable, its
modified-in-place flag, what it marshals to (`none` models a marshal failure), and
its reference count. -/
structure ObjData where
  is_mutable : Bool
  modified_in_place : Bool
  marshalled : Option (List Nat × Nat)
  refcnt : Nat
  deriving Repr, DecidableEq, Inhabited

/-- The object heap: address p holds the p-th entry. -/
abbrev Heap := List ObjData

def heapGet (hp : Heap) (p : Nat) : ObjData := hp.getD p default

def heapSet (hp : Heap) (p : Nat) (d : ObjData) : Heap := hp.set p d

/-- Modelled from the spec: Value contract acquire (filterx_object_ref); a NULL
argument is passed through. -/
def filterx_object_ref (hp : Heap) (p : Option Nat) : Heap :=
  match p with
  | none => hp
  | some q => heapSet hp q { heapGet hp q with refcnt := (heapGet hp q).refcnt + 1 }

/-- Modelled from the spec: Value contract release (filterx_object_unref); a NULL
argument is passed through.  Reclamation once the count reaches zero is not
modelled beyond the count itself. -/
def filterx_object_unref (hp : Heap) (p : Option Nat) : Heap :=
  match p with
  | none => hp
  | some q => heapSet hp q { heapGet hp q with refcnt := (heapGet hp q).refcnt - 1 }

/-- Modelled from the spec: the Value clone contract: a deep copy at a fresh address
for mutable variants, a shared reference for immutable ones. -/
def filterx_object_clone (hp : Heap) (p : Option Nat) : Heap × Option Nat :=
  match p with
  | none => (hp, none)
  | some q =>
    let d := heapGet hp q
    if d.is_mutable then (hp ++ [{ d with refcnt := 1 }], some hp.length)
    else (filterx_object_ref hp (some q), some q)

/-- Modelled from the spec: the Value marshal contract; `none` is a marshal failure. -/
def filterx_object_marshal (hp : Heap) (p : Nat) : Option (List Nat × Nat) :=
  (heapGet hp p).marshalled

/-- Modelled from the spec: the Record contract.  A LogMessage maps handles to typed
byte values; modelled as an association list without duplicate keys. -/
abbrev Record := List (Nat × (List Nat × Nat))

/-- Modelled from the spec: Record get-if-set. -/
def log_msg_get_value_if_set_with_type (msg : Record) (handle : Nat) :
    Option (List Nat × Nat) :=
  (msg.find? (fun e => e.1 == handle)).map (fun e => e.2)

/-- Modelled from the spec: Record is-set. -/
def log_msg_is_value_set (msg : Record) (handle : Nat) : Bool :=
  (log_msg_get_value_if_set_with_type msg handle).isSome

/-- Modelled from the spec: Record unset. -/
def log_msg_unset_value (msg : Record) (handle : Nat) : Record :=
  msg.filter (fun e => e.1 != handle)

/-- Modelled from the spec: Record set-with-type. -/
def log_msg_set_value_with_type (msg : Record) (handle : Nat) (bytes : List Nat)
    (t : Nat) : Record :=
  (handle, (bytes, t)) :: log_msg_unset_value msg handle

/-- struct _FilterXVariable: handle, floating/assigned bit flags, and the owned
optional value (an absent value models a NULL pointer). -/
structure FilterXVariable where
  handle : Nat
  floating : Bool
  assigned : Bool
  value : Option Nat
  deriving Repr, DecidableEq, Inhabited

/-- struct _FilterXScope: variable table, weak-ref list, write-protect flag.  The
atomic reference counter governs sharing of the struct, not its contents, and is
not part of the state modelled here. -/
structure FilterXScope where
  vars : List FilterXVariable
  weak_refs : List Nat
  write_protected : Bool
  deriving Repr, DecidableEq

/-- filterx_variable_get_value: returns the held value with a fresh reference. -/
def filterx_variable_get_value (hp : Heap) (v : FilterXVariable) : Heap × Option Nat :=
  (filterx_object_ref hp v.value, v.value)

/-- filterx_variable_set_value: releases the old value, takes a reference to the new
one, and sets the assigned flag. -/
def filterx_variable_set_value (hp : Heap) (v : FilterXVariable) (new_value : Option Nat) :
    Heap × FilterXVariable :=
  (filterx_object_ref (filterx_object_unref hp v.value) new_value,
   { v with value := new_value, assigned := true })

/-- filterx_variable_unset_value = set_value NULL. -/
def filterx_variable_unset_value (hp : Heap) (v : FilterXVariable) : Heap × FilterXVariable :=
  filterx_variable_set_value hp v none

/-- filterx_variable_is_set: the held value is present. -/
def filterx_variable_is_set (v : FilterXVariable) : Bool :=
  v.value.isSome

/-- The loop of _lookup_variable: open-coded binary search.  The C indices are gint;
the initial upper bound is the unsigned table length minus one converted to gint,
which is -1 for an empty table, hence the integer index type.  Returns (found,
index): on success the index of the match, on failure the insertion point l. -/
def lookup_loop (vars : List FilterXVariable) (handle : Nat) (l h : Int) : Bool × Int :=
  if l ≤ h then
    let m : Int := (l + h) / 2
    let m_elem := vars.getD m.toNat default
    if m_elem.handle = handle then (true, m)
    else if m_elem.handle > handle then lookup_loop vars handle l (m - 1)
    else lookup_loop vars handle (m + 1) h
  else (false, l)
termination_by (h + 1 - l).toNat
decreasing_by all_goals omega

/-- _lookup_variable: binary search over the whole table. -/
def _lookup_variable (s : FilterXScope) (handle : Nat) : Bool × Int :=
  lookup_loop s.vars handle 0 ((s.vars.length : Int) - 1)

/-- filterx_scope_lookup_variable: NULL when not found, otherwise the slot (modelled
as an index into the table). -/
def filterx_scope_lookup_variable (s : FilterXScope) (handle : Nat) : Option Nat :=
  let r := _lookup_variable s handle
  if r.1 then some r.2.toNat else none

/-- filterx_scope_register_variable: return the existing slot if the handle is
already present; otherwise insert a fresh Variable at the insertion point computed
by the binary search, taking a reference to the initial value.  The returned index
models the returned slot pointer. -/
def filterx_scope_register_variable (s : FilterXScope) (hp : Heap) (handle : Nat)
    (floating : Bool) (initial_value : Option Nat) : FilterXScope × Heap × Nat :=
  let r := _lookup_variable s handle
  if r.1 then (s, hp, r.2.toNat)
  else
    let v_index := r.2.toNat
    let v : FilterXVariable :=
      { handle := handle, assigned := false, floating := floating, value := initial_value }
    ({ s with vars := s.vars.insertIdx v_index v },
     filterx_object_ref hp initial_value, v_index)

/-- filterx_scope_store_weak_ref: g_asserts (modelled as `none`) on a write-protected
scope; a NULL object is ignored. -/
def filterx_scope_store_weak_ref (s : FilterXScope) (hp : Heap) (p : Option Nat) :
    Option (FilterXScope × Heap) :=
  if s.write_protected then none
  else
    match p with
    | none => some (s, hp)
    | some q => some ({ s with weak_refs := s.weak_refs ++ [q] },
                      filterx_object_ref hp (some q))

/-- Operations issued against the Record during sync, in table order. -/
inductive RecOp where
  | unset (handle : Nat)
  | set (handle : Nat) (bytes : List Nat) (t : Nat)
  deriving Repr, DecidableEq

/-- The loop of filterx_scope_sync_to_message over the table tail.  Returns the trace
of Record operations together with the final state, or `none` for the
g_assert_not_reached abort on a marshal failure. -/
def sync_vars : List FilterXVariable → Heap → Record →
    List RecOp × Option (List FilterXVariable × Heap × Record)
  | [], hp, msg => ([], some ([], hp, msg))
  | v :: rest, hp, msg =>
    if v.floating then
      let r := sync_vars rest hp msg
      (r.1, r.2.map (fun x => (v :: x.1, x.2)))
    else
      match v.value with
      | none =>
        let r := sync_vars rest hp (log_msg_unset_value msg v.handle)
        (RecOp.unset v.handle :: r.1,
         r.2.map (fun x => ({ v with assigned := false } :: x.1, x.2)))
      | some p =>
        if v.assigned || (heapGet hp p).modified_in_place then
          match filterx_object_marshal hp p with
          | none => ([], none)
          | some (bytes, t) =>
            let hp2 := heapSet hp p { heapGet hp p with modified_in_place := false }
            let r := sync_vars rest hp2 (log_msg_set_value_with_type msg v.handle bytes t)
            (RecOp.set v.handle bytes t :: r.1,
             r.2.map (fun x => ({ v with assigned := false } :: x.1, x.2)))
        else
          let r := sync_vars rest hp msg
          (r.1, r.2.map (fun x => (v :: x.1, x.2)))

/-- filterx_scope_sync_to_message: walk the table in order, unsetting absent-valued
non-floating variables and writing back assigned or modified ones. -/
def filterx_scope_sync_to_message (s : FilterXScope) (hp : Heap) (msg : Record) :
    List RecOp × Option (FilterXScope × Heap × Record) :=
  let r := sync_vars s.vars hp msg
  (r.1, r.2.map (fun x => ({ s with vars := x.1 }, x.2)))

/-- filterx_scope_new: empty table, empty weak refs, not write-protected. -/
def filterx_scope_new : FilterXScope :=
  { vars := [], weak_refs := [], write_protected := false }

/-- The loop of filterx_scope_clone: copy each Variable struct, then replace its
value with a clone. -/
def clone_vars : List FilterXVariable → Heap → List FilterXVariable × Heap
  | [], hp => ([], hp)
  | v :: rest, hp =>
    let c := filterx_object_clone hp v.value
    let r := clone_vars rest c.1
    ({ v with value := c.2 } :: r.1, r.2)

/-- filterx_scope_clone: a fresh scope holding cloned variables; weak refs are not
copied. -/
def filterx_scope_clone (other : FilterXScope) (hp : Heap) : FilterXScope × Heap :=
  let r := clone_vars other.vars hp
  ({ filterx_scope_new with vars := r.1 }, r.2)

/-- filterx_scope_write_protect. -/
def filterx_scope_write_protect (s : FilterXScope) : FilterXScope :=
  { s with write_protected := true }

/-- filterx_scope_make_writable: clone a write-protected scope (the old shared
reference is released by the caller-side unref, not part of the table state),
otherwise return the same scope. -/
def filterx_scope_make_writable (s : FilterXScope) (hp : Heap) : FilterXScope × Heap :=
  if s.write_protected then filterx_scope_clone s hp else (s, hp)

/-- struct _FilterXMessageRefExpr: the lazy field reference, reduced to its handle. -/
structure FilterXMessageRefExpr where
  handle : Nat
  deriving Repr, DecidableEq

/-- Modelled from the spec: filterx_message_value_new_borrowed wraps Record bytes as
an immutable message Value holding one reference. -/
def filterx_message_value_new_borrowed (hp : Heap) (bytes : List Nat) (t : Nat) :
    Heap × Nat :=
  (hp ++ [{ is_mutable := false, modified_in_place := false,
            marshalled := some (bytes, t), refcnt := 1 }], hp.length)

/-- _pull_variable_from_message: on a Record miss return NULL without registering;
on a hit wrap the Record value and register it as a non-floating variable. -/
def _pull_variable_from_message (self : FilterXMessageRefExpr) (s : FilterXScope)
    (hp : Heap) (msg : Record) : Option Nat × FilterXScope × Heap :=
  match log_msg_get_value_if_set_with_type msg self.handle with
  | none => (none, s, hp)
  | some (bytes, t) =>
    let a := filterx_message_value_new_borrowed hp bytes t
    let r := filterx_scope_register_variable s a.1 self.handle false (some a.2)
    (some a.2, r.1, r.2.1)

/-- _whiteout_variable: register an absent-valued, non-floating variable. -/
def _whiteout_variable (self : FilterXMessageRefExpr) (s : FilterXScope) (hp : Heap) :
    FilterXScope × Heap :=
  let r := filterx_scope_register_variable s hp self.handle false none
  (r.1, r.2.1)

/-- _eval: read through the lazy reference. -/
def _eval (self : FilterXMessageRefExpr) (s : FilterXScope) (hp : Heap) (msg : Record) :
    Option Nat × FilterXScope × Heap :=
  match filterx_scope_lookup_variable s self.handle with
  | some idx =>
    let g := filterx_variable_get_value hp (s.vars.getD idx default)
    (g.2, s, g.1)
  | none => _pull_variable_from_message self s hp msg

/-- Modelled from the spec: the evaluation layer hands mutating expressions an
exclusively owned scope (the make_writable COW gate). -/
def filterx_eval_get_scope (s : FilterXScope) (hp : Heap) : FilterXScope × Heap :=
  filterx_scope_make_writable s hp

/-- _assign: write through the lazy reference.  Registers an absent-valued slot on a
miss, stores a clone of the new value, releases the clone's extra reference, and
reports success. -/
def _assign (self : FilterXMessageRefExpr) (s : FilterXScope) (hp : Heap)
    (new_value : Nat) : Bool × FilterXScope × Heap :=
  let g := filterx_eval_get_scope s hp
  let p :=
    match filterx_scope_lookup_variable g.1 self.handle with
    | some idx => (g.1, g.2, idx)
    | none => filterx_scope_register_variable g.1 g.2 self.handle false none
  let c := filterx_object_clone p.2.1 (some new_value)
  let sv := filterx_variable_set_value c.1 (p.1.vars.getD p.2.2 default) c.2
  (true,
   { p.1 with vars := p.1.vars.set p.2.2 sv.2 },
   filterx_object_unref sv.1 c.2)

/-- _isset: a scope variable's presence wins; otherwise ask the Record. -/
def _isset (self : FilterXMessageRefExpr) (s : FilterXScope) (hp : Heap) (msg : Record) :
    Bool :=
  let g := filterx_eval_get_scope s hp
  match filterx_scope_lookup_variable g.1 self.handle with
  | some idx => filterx_variable_is_set (g.1.vars.getD idx default)
  | none => log_msg_is_value_set msg self.handle

/-- _unset: unset an existing variable, or whiteout a Record-only field; always
returns TRUE.  The Record is threaded through unchanged: the source only reads it
(log_msg_is_value_set) on this path. -/
def _unset (self : FilterXMessageRefExpr) (s : FilterXScope) (hp : Heap) (msg : Record) :
    Bool × FilterXScope × Heap × Record :=
  match filterx_scope_lookup_variable s self.handle with
  | some idx =>
    let u := filterx_variable_unset_value hp (s.vars.getD idx default)
    (true, { s with vars := s.vars.set idx u.2 }, u.1, msg)
  | none =>
    if log_msg_is_value_set msg self.handle then
      let w := _whiteout_variable self s hp
      (true, w.1, w.2, msg)
    else (true, s, hp, msg)

/-! Derived notions used to state properties of the embedding. -/

/-- The variable table is strictly sorted ascending by handle (scope invariant). -/
abbrev SortedVars (vs : List FilterXVariable) : Prop :=
  vs.Pairwise (fun a b => a.handle < b.handle)

/-- Every value pointer held by the table is a valid heap address. -/
abbrev PtrsValid (hp : Heap) (vs : List FilterXVariable) : Prop :=
  ∀ v ∈ vs, v.value.all (fun p => p < hp.length) = true

/-- The handle stored at slot j. -/
def handleAt (vs : List FilterXVariable) (j : Nat) : Nat :=
  (vs.getD j default).handle

/-- The value-relevant part of an object: mutability, modified-in-place flag and
marshalled form — everything except the reference count. -/
def objVal (d : ObjData) : Bool × Bool × Option (List Nat × Nat) :=
  (d.is_mutable, d.modified_in_place, d.marshalled)

/-- The observable content of a variable's value: absent, or the value-relevant
part of the object it points to. -/
def var_obs (hp : Heap) (v : FilterXVariable) : Option (Bool × Bool × Option (List Nat × Nat)) :=
  v.value.map (fun p => objVal (heapGet hp p))

/-- A heap address held (owned) by some variable of the table. -/
abbrev HeldBy (vs : List FilterXVariable) (p : Nat) : Prop :=
  ∃ v ∈ vs, v.value = some p

/-- Whether sync will issue a Record write for this variable (non-floating, value
present, assigned or modified in place). -/
def sync_writes (hp : Heap) (v : FilterXVariable) : Bool :=
  !v.floating &&
    match v.value with
    | none => false
    | some p => v.assigned || (heapGet hp p).modified_in_place

/-- The Record operations a single variable contributes during sync, judged against
the initial heap. -/
def sync_op_of (hp : Heap) (v : FilterXVariable) : List RecOp :=
  if v.floating then []
  else
    match v.value with
    | none => [RecOp.unset v.handle]
    | some p =>
      if v.assigned || (heapGet hp p).modified_in_place then
        match filterx_object_marshal hp p with
        | none => []
        | some (bytes, t) => [RecOp.set v.handle bytes t]
      else []

/-- The state of a single variable after sync: the assigned flag is cleared exactly
when a Record operation was issued for it. -/
def sync_var_result (hp : Heap) (v : FilterXVariable) : FilterXVariable :=
  if v.floating then v
  else
    match v.value with
    | none => { v with assigned := false }
    | some p =>
      if v.assigned || (heapGet hp p).modified_in_place then { v with assigned := false }
      else v

/-- Every variable that sync will write marshals successfully. -/
abbrev MarshalOk (hp : Heap) (vs : List FilterXVariable) : Prop :=
  ∀ v ∈ vs, sync_writes hp v = true →
    v.value.all (fun p => (heapGet hp p).marshalled.isSome) = true

/-- Replay a trace of Record operations against a Record. -/
def apply_rec_op (msg : Record) : RecOp → Record
  | RecOp.unset handle => log_msg_unset_value msg handle
  | RecOp.set handle bytes t => log_msg_set_value_with_type msg handle bytes t

/-- Whether sync writes back some variable holding heap address q (the addresses
whose modified-in-place flag it clears). -/
def written_ptr (hp : Heap) (vs : List FilterXVariable) (q : Nat) : Bool :=
  vs.any (fun v => sync_writes hp v && v.value == some q)

/-- Fold a sequence of register calls over a scope (used to state the table
invariant). -/
def register_all (s : FilterXScope) (hp : Heap)
    (ops : List (Nat × Bool × Option Nat)) : FilterXScope × Heap :=
  ops.foldl (fun acc op =>
    let r := filterx_scope_register_variable acc.1 acc.2 op.1 op.2.1 op.2.2
    (r.1, r.2.1)) (s, hp)

/-- Concrete example values used by closed witness theorems. -/
def exHeapA : Heap :=
  [⟨true, false, some ([7], 3), 1⟩, ⟨false, false, some ([8], 4), 2⟩]

def exScopeA : FilterXScope :=
  ⟨[⟨1, false, true, some 0⟩, ⟨2, false, false, none⟩, ⟨5, true, false, some 1⟩],
   [], true⟩

def exMsgA : Record := [(2, ([1], 1))]

/-! Basic heap lemmas. -/

theorem heapGet_heapSet_ne (hp : Heap) (p q : Nat) (d : ObjData) (hne : p ≠ q) :
    heapGet (heapSet hp p d) q = heapGet hp q := by
  simp [heapGet, heapSet, List.getD, List.getElem?_set_ne hne]

theorem heapGet_heapSet_self (hp : Heap) (p : Nat) (d : ObjData) (hlt : p < hp.length) :
    heapGet (heapSet hp p d) p = d := by
  simp [heapGet, heapSet, List.getD, List.getElem?_set_self, hlt]

theorem heapSet_length (hp : Heap) (p : Nat) (d : ObjData) :
    (heapSet hp p d).length = hp.length := by
  simp [heapSet]

theorem filterx_object_ref_length (hp : Heap) (p : Option Nat) :
    (filterx_object_ref hp p).length = hp.length := by
  cases p <;> simp [filterx_object_ref, heapSet]

theorem filterx_object_unref_length (hp : Heap) (p : Option Nat) :
    (filterx_object_unref hp p).length = hp.length := by
  cases p <;> simp [filterx_object_unref, heapSet]

theorem objVal_ref (hp : Heap) (p : Option Nat) (q : Nat) :
    objVal (heapGet (filterx_object_ref hp p) q) = objVal (heapGet hp q) := by
  match p with
  | none => rfl
  | some r =>
    simp only [filterx_object_ref]
    rcases Nat.lt_or_ge r hp.length with hr | hr
    · rcases eq_or_ne r q with rfl | hrq
      · rw [heapGet_heapSet_self hp r _ hr]
        rfl
      · rw [heapGet_heapSet_ne hp r q _ hrq]
    · rw [heapSet, List.set_eq_of_length_le hr]

theorem objVal_unref (hp : Heap) (p : Option Nat) (q : Nat) :
    objVal (heapGet (filterx_object_unref hp p) q) = objVal (heapGet hp q) := by
  match p with
  | none => rfl
  | some r =>
    simp only [filterx_object_unref]
    rcases Nat.lt_or_ge r hp.length with hr | hr
    · rcases eq_or_ne r q with rfl | hrq
      · rw [heapGet_heapSet_self hp r _ hr]
        rfl
      · rw [heapGet_heapSet_ne hp r q _ hrq]
    · rw [heapSet, List.set_eq_of_length_le hr]

/-! Sorted-table facts. -/

theorem handleAt_lt_of_sorted {vs : List FilterXVariable} (hs : SortedVars vs)
    {i j : Nat} (hij : i < j) (hj : j < vs.length) :
    handleAt vs i < handleAt vs j := by
  have hi : i < vs.length := lt_trans hij hj
  rw [handleAt, handleAt, List.getD_eq_getElem _ _ hi, List.getD_eq_getElem _ _ hj]
  exact List.pairwise_iff_getElem.mp hs i j hi hj hij

/-! Binary search correctness: on a sorted table, the loop finds the handle when it
is inside the searched window, and otherwise exits with l at the sorted insertion
point. -/

theorem lookup_loop_spec (vars : List FilterXVariable) (handle : Nat)
    (hs : SortedVars vars) :
    ∀ l h : Int, 0 ≤ l → l ≤ (vars.length : Int) → h < (vars.length : Int) →
    (∀ j : Nat, j < vars.length → (j : Int) < l → handleAt vars j < handle) →
    (∀ j : Nat, j < vars.length → h < (j : Int) → handle < handleAt vars j) →
    (∀ m : Int, lookup_loop vars handle l h = (true, m) →
        0 ≤ m ∧ m.toNat < vars.length ∧ handleAt vars m.toNat = handle) ∧
    (∀ li : Int, lookup_loop vars handle l h = (false, li) →
        0 ≤ li ∧ li.toNat ≤ vars.length ∧
        (∀ j : Nat, j < li.toNat → handleAt vars j < handle) ∧
        (∀ j : Nat, li.toNat ≤ j → j < vars.length → handle < handleAt vars j)) := by
  intro l h
  induction l, h using lookup_loop.induct vars handle with
  | case1 l h hle m m_elem hfound =>
    intro h0l _ hhlen _ _
    have hmdef : m = (l + h) / 2 := rfl
    have hedef : m_elem = vars.getD m.toNat default := rfl
    have heq : lookup_loop vars handle l h = (true, m) := by
      rw [lookup_loop]
      simp only [if_pos hle, ← hmdef, ← hedef, if_pos hfound]
    constructor
    · intro m0 hm
      rw [heq] at hm
      injection hm with _ hm2
      subst hm2
      refine ⟨by omega, by omega, ?_⟩
      show (vars.getD m.toNat default).handle = handle
      rw [← hedef]
      exact hfound
    · intro li hli
      rw [heq] at hli
      simp at hli
  | case2 l h hle m m_elem hne hgt ih =>
    intro h0l hllen hhlen hlo hhi
    have hmdef : m = (l + h) / 2 := rfl
    have hedef : m_elem = vars.getD m.toNat default := rfl
    have hm1 : l ≤ m := by omega
    have hm2 : m ≤ h := by omega
    have hmnat : (m.toNat : Int) = m := by omega
    have heq : lookup_loop vars handle l h = lookup_loop vars handle l (m - 1) := by
      rw [lookup_loop]
      simp only [← hmdef, ← hedef, if_pos hle, if_neg hne, if_pos hgt]
    have hmid : handle < handleAt vars m.toNat := by
      show handle < (vars.getD m.toNat default).handle
      rw [← hedef]
      exact hgt
    have pb : m - 1 < (vars.length : Int) := by omega
    have pw : ∀ j : Nat, j < vars.length → m - 1 < (j : Int) → handle < handleAt vars j := by
      intro j hj hjgt
      rcases Nat.lt_or_ge m.toNat j with hj2 | hj2
      · exact lt_trans hmid (handleAt_lt_of_sorted hs hj2 hj)
      · have : j = m.toNat := by omega
        rw [this]
        exact hmid
    have ih2 := ih h0l hllen pb hlo pw
    rw [heq]
    exact ih2
  | case3 l h hle m m_elem hne hngt ih =>
    intro h0l hllen hhlen hlo hhi
    have hmdef : m = (l + h) / 2 := rfl
    have hedef : m_elem = vars.getD m.toNat default := rfl
    have hm1 : l ≤ m := by omega
    have hm2 : m ≤ h := by omega
    have hmnat : (m.toNat : Int) = m := by omega
    have heq : lookup_loop vars handle l h = lookup_loop vars handle (m + 1) h := by
      rw [lookup_loop]
      simp only [← hmdef, ← hedef, if_pos hle, if_neg hne, if_neg hngt]
    have hmlen : m.toNat < vars.length := by omega
    have hmid : handleAt vars m.toNat < handle := by
      have h1 : ¬ (vars.getD m.toNat default).handle = handle := by rw [← hedef]; exact hne
      have h2 : ¬ (vars.getD m.toNat default).handle > handle := by rw [← hedef]; exact hngt
      show (vars.getD m.toNat default).handle < handle
      exact lt_of_le_of_ne (Nat.le_of_not_lt h2) h1
    have pa : (0 : Int) ≤ m + 1 := by omega
    have pb : m + 1 ≤ (vars.length : Int) := by omega
    have pw : ∀ j : Nat, j < vars.length → (j : Int) < m + 1 → handleAt vars j < handle := by
      intro j hj hjlt
      rcases Nat.lt_or_ge j m.toNat with hj2 | hj2
      · exact lt_trans (handleAt_lt_of_sorted hs hj2 hmlen) hmid
      · have : j = m.toNat := by omega
        rw [this]
        exact hmid
    have ih2 := ih pa pb hhlen pw hhi
    rw [heq]
    exact ih2
  | case4 l h hnle =>
    intro h0l hllen hhlen hlo hhi
    have heq : lookup_loop vars handle l h = (false, l) := by
      rw [lookup_loop]
      simp only [if_neg hnle]
    constructor
    · intro m hm
      rw [heq] at hm
      simp at hm
    · intro li hli
      rw [heq] at hli
      injection hli with _ hli2
      subst hli2
      refine ⟨h0l, by omega, ?_, ?_⟩
      · intro j hj
        exact hlo j (by omega) (by omega)
      · intro j hj1 hj2
        exact hhi j hj2 (by omega)

/-- The binary search specification instantiated at the full window. -/
theorem lookup_variable_spec (s : FilterXScope) (handle : Nat)
    (hs : SortedVars s.vars) :
    (∀ m : Int, _lookup_variable s handle = (true, m) →
        0 ≤ m ∧ m.toNat < s.vars.length ∧ handleAt s.vars m.toNat = handle) ∧
    (∀ li : Int, _lookup_variable s handle = (false, li) →
        0 ≤ li ∧ li.toNat ≤ s.vars.length ∧
        (∀ j : Nat, j < li.toNat → handleAt s.vars j < handle) ∧
        (∀ j : Nat, li.toNat ≤ j → j < s.vars.length → handle < handleAt s.vars j)) := by
  have hlo : ∀ j : Nat, j < s.vars.length → (j : Int) < 0 → handleAt s.vars j < handle := by
    intro j hj hneg
    omega
  have hhi : ∀ j : Nat, j < s.vars.length → (s.vars.length : Int) - 1 < (j : Int) →
      handle < handleAt s.vars j := by
    intro j hj hgt
    omega
  exact lookup_loop_spec s.vars handle hs 0 ((s.vars.length : Int) - 1)
    (by omega) (by omega) (by omega) hlo hhi

theorem lookup_found_spec (s : FilterXScope) (handle : Nat) (hs : SortedVars s.vars)
    (idx : Nat) (hf : filterx_scope_lookup_variable s handle = some idx) :
    idx < s.vars.length ∧ handleAt s.vars idx = handle := by
  rcases hr : _lookup_variable s handle with ⟨found, pos⟩
  rw [filterx_scope_lookup_variable] at hf
  simp only [hr] at hf
  cases found with
  | false => simp at hf
  | true =>
    simp at hf
    obtain ⟨_, h2, h3⟩ := (lookup_variable_spec s handle hs).1 pos hr
    rw [← hf]
    exact ⟨h2, h3⟩

theorem lookup_none_spec (s : FilterXScope) (handle : Nat) (hs : SortedVars s.vars)
    (hn : filterx_scope_lookup_variable s handle = none) :
    ∀ j : Nat, j < s.vars.length → handleAt s.vars j ≠ handle := by
  intro j hj
  rcases hr : _lookup_variable s handle with ⟨found, pos⟩
  rw [filterx_scope_lookup_variable] at hn
  simp only [hr] at hn
  cases found with
  | true => simp at hn
  | false =>
    obtain ⟨_, _, hlo, hhi⟩ := (lookup_variable_spec s handle hs).2 pos hr
    rcases Nat.lt_or_ge j pos.toNat with hj2 | hj2
    · exact Nat.ne_of_lt (hlo j hj2)
    · exact (Nat.ne_of_lt (hhi j hj2 hj)).symm

theorem lookup_isSome_of_mem (s : FilterXScope) (handle : Nat) (hs : SortedVars s.vars)
    (j : Nat) (hj : j < s.vars.length) (hh : handleAt s.vars j = handle) :
    ∃ idx, filterx_scope_lookup_variable s handle = some idx := by
  cases hl : filterx_scope_lookup_variable s handle with
  | some idx => exact ⟨idx, rfl⟩
  | none => exact absurd hh (lookup_none_spec s handle hs hl j hj)

/-! Register lemmas. -/

/-- register on a handle already found by lookup leaves scope and heap untouched and
hands back the found slot. -/
theorem register_found (s : FilterXScope) (hp : Heap) (handle : Nat) (fl : Bool)
    (init : Option Nat) (idx : Nat)
    (hf : filterx_scope_lookup_variable s handle = some idx) :
    filterx_scope_register_variable s hp handle fl init = (s, hp, idx) := by
  rcases hr : _lookup_variable s handle with ⟨found, pos⟩
  rw [filterx_scope_lookup_variable] at hf
  simp only [hr] at hf
  cases found with
  | false => simp at hf
  | true =>
    simp at hf
    rw [filterx_scope_register_variable]
    simp only [hr, if_pos]
    rw [hf]

/-- register on a handle missed by lookup inserts at the binary search's insertion
point. -/
theorem register_fresh (s : FilterXScope) (hp : Heap) (handle : Nat) (fl : Bool)
    (init : Option Nat)
    (hn : filterx_scope_lookup_variable s handle = none) :
    filterx_scope_register_variable s hp handle fl init =
      ({ s with vars := (s.vars.insertIdx (_lookup_variable s handle).2.toNat
          { handle := handle, floating := fl, assigned := false, value := init }) },
       filterx_object_ref hp init, (_lookup_variable s handle).2.toNat) := by
  rcases hr : _lookup_variable s handle with ⟨found, pos⟩
  rw [filterx_scope_lookup_variable] at hn
  simp only [hr] at hn
  cases found with
  | true => simp at hn
  | false =>
    rw [filterx_scope_register_variable]
    simp only [hr]
    simp

/-! Sorted insertion. -/

theorem handleAt_insertIdx_lt (vs : List FilterXVariable) (v : FilterXVariable)
    (li k : Nat) (hk : k < li) (hklen : k < vs.length) :
    handleAt (vs.insertIdx li v) k = handleAt vs k := by
  have hk2 : k < (vs.insertIdx li v).length :=
    lt_of_lt_of_le hklen (List.length_le_length_insertIdx vs v li)
  rw [handleAt, handleAt, List.getD_eq_getElem _ _ hk2, List.getD_eq_getElem _ _ hklen,
    List.getElem_insertIdx_of_lt vs v li k hk hklen]

theorem handleAt_insertIdx_self (vs : List FilterXVariable) (v : FilterXVariable)
    (li : Nat) (hle : li ≤ vs.length) :
    handleAt (vs.insertIdx li v) li = v.handle := by
  have hlen : (vs.insertIdx li v).length = vs.length + 1 := List.length_insertIdx li vs hle
  have hli : li < (vs.insertIdx li v).length := by omega
  rw [handleAt, List.getD_eq_getElem _ _ hli, List.getElem_insertIdx_self vs v li hle]

theorem handleAt_insertIdx_gt (vs : List FilterXVariable) (v : FilterXVariable)
    (li k : Nat) (hle : li ≤ vs.length) (hk : li < k) (hklen : k ≤ vs.length) :
    handleAt (vs.insertIdx li v) k = handleAt vs (k - 1) := by
  have hlen : (vs.insertIdx li v).length = vs.length + 1 := List.length_insertIdx li vs hle
  have hk2 : k < (vs.insertIdx li v).length := by omega
  have hk3 : k - 1 < vs.length := by omega
  have hidx : li + (k - 1 - li) = k - 1 := by omega
  have hidx2 : li + (k - 1 - li) + 1 = k := by omega
  have hk4 : li + (k - 1 - li) < vs.length := by omega
  rw [handleAt, handleAt, List.getD_eq_getElem _ _ hk2, List.getD_eq_getElem _ _ hk3]
  have := List.getElem_insertIdx_add_succ vs v li (k - 1 - li) hk4
    (by rw [hidx2]; exact hk2)
  simp only [hidx] at this
  have hk5 : k - 1 + 1 = k := by omega
  simp only [hk5] at this
  rw [this]

theorem insertIdx_sorted {vs : List FilterXVariable} (hs : SortedVars vs)
    (li : Nat) (v : FilterXVariable) (hle : li ≤ vs.length)
    (hlo : ∀ j : Nat, j < li → handleAt vs j < v.handle)
    (hhi : ∀ j : Nat, li ≤ j → j < vs.length → v.handle < handleAt vs j) :
    SortedVars (vs.insertIdx li v) := by
  have hlen : (vs.insertIdx li v).length = vs.length + 1 := List.length_insertIdx li vs hle
  rw [SortedVars, List.pairwise_iff_getElem]
  intro i j hi hj hij
  have hgi : (vs.insertIdx li v)[i].handle = handleAt (vs.insertIdx li v) i := by
    rw [handleAt, List.getD_eq_getElem _ _ hi]
  have hgj : (vs.insertIdx li v)[j].handle = handleAt (vs.insertIdx li v) j := by
    rw [handleAt, List.getD_eq_getElem _ _ hj]
  rw [hlen] at hi hj
  show _ < _
  rw [hgi, hgj]
  rcases Nat.lt_trichotomy i li with hi2 | hi2 | hi2
  · rw [handleAt_insertIdx_lt vs v li i hi2 (by omega)]
    rcases Nat.lt_trichotomy j li with hj2 | hj2 | hj2
    · rw [handleAt_insertIdx_lt vs v li j hj2 (by omega)]
      exact handleAt_lt_of_sorted hs hij (by omega)
    · rw [hj2, handleAt_insertIdx_self vs v li hle]
      exact hlo i hi2
    · rw [handleAt_insertIdx_gt vs v li j hle hj2 (by omega)]
      rcases Nat.lt_or_ge i (j - 1) with hij2 | hij2
      · exact handleAt_lt_of_sorted hs hij2 (by omega)
      · have : i = j - 1 := by omega
        omega
  · subst hi2
    rw [handleAt_insertIdx_self vs v i hle]
    have hj2 : i < j := hij
    rw [handleAt_insertIdx_gt vs v i j hle hj2 (by omega)]
    exact hhi (j - 1) (by omega) (by omega)
  · rw [handleAt_insertIdx_gt vs v li i hle hi2 (by omega)]
    have hj2 : li < j := by omega
    rw [handleAt_insertIdx_gt vs v li j hle hj2 (by omega)]
    exact handleAt_lt_of_sorted hs (by omega) (by omega)

theorem handleAt_inj_of_sorted {vs : List FilterXVariable} (hs : SortedVars vs)
    {i j : Nat} (hi : i < vs.length) (hj : j < vs.length)
    (heq : handleAt vs i = handleAt vs j) : i = j := by
  rcases Nat.lt_trichotomy i j with hij | hij | hij
  · exact absurd heq (Nat.ne_of_lt (handleAt_lt_of_sorted hs hij hj))
  · exact hij
  · exact absurd heq.symm (Nat.ne_of_lt (handleAt_lt_of_sorted hs hij hi))

theorem mem_map_handle_iff (vs : List FilterXVariable) (x : Nat) :
    x ∈ vs.map (fun v => v.handle) ↔ ∃ j, j < vs.length ∧ handleAt vs j = x := by
  rw [List.mem_map]
  constructor
  · rintro ⟨v, hv, rfl⟩
    obtain ⟨i, hi, rfl⟩ := List.mem_iff_getElem.mp hv
    exact ⟨i, hi, by rw [handleAt, List.getD_eq_getElem _ _ hi]⟩
  · rintro ⟨j, hj, rfl⟩
    refine ⟨vs.getD j default, ?_, rfl⟩
    rw [List.getD_eq_getElem _ _ hj]
    exact List.getElem_mem hj

theorem lookup_none_iff (s : FilterXScope) (handle : Nat) (hs : SortedVars s.vars) :
    filterx_scope_lookup_variable s handle = none ↔
      handle ∉ s.vars.map (fun v => v.handle) := by
  constructor
  · intro hn hmem
    obtain ⟨j, hj, hh⟩ := (mem_map_handle_iff s.vars handle).mp hmem
    exact lookup_none_spec s handle hs hn j hj hh
  · intro hmem
    cases hl : filterx_scope_lookup_variable s handle with
    | none => rfl
    | some idx =>
      obtain ⟨h1, h2⟩ := lookup_found_spec s handle hs idx hl
      exact absurd ((mem_map_handle_iff s.vars handle).mpr ⟨idx, h1, h2⟩) hmem

/-- One register call preserves sortedness and adds exactly the registered handle to
the table's handle set. -/
theorem register_step (s : FilterXScope) (hp : Heap) (handle : Nat) (fl : Bool)
    (init : Option Nat) (hs : SortedVars s.vars) :
    SortedVars (filterx_scope_register_variable s hp handle fl init).1.vars ∧
    (∀ x, x ∈ (filterx_scope_register_variable s hp handle fl init).1.vars.map
        (fun v => v.handle) ↔ (x = handle ∨ x ∈ s.vars.map (fun v => v.handle))) := by
  cases hl : filterx_scope_lookup_variable s handle with
  | some idx =>
    rw [register_found s hp handle fl init idx hl]
    obtain ⟨h1, h2⟩ := lookup_found_spec s handle hs idx hl
    have hmem : handle ∈ s.vars.map (fun v => v.handle) :=
      (mem_map_handle_iff s.vars handle).mpr ⟨idx, h1, h2⟩
    refine ⟨hs, fun x => ?_⟩
    constructor
    · intro hx
      exact Or.inr hx
    · rintro (rfl | hx)
      · exact hmem
      · exact hx
  | none =>
    rw [register_fresh s hp handle fl init hl]
    rcases hr : _lookup_variable s handle with ⟨found, pos⟩
    have hfalse : found = false := by
      rw [filterx_scope_lookup_variable] at hl
      simp only [hr] at hl
      cases found
      · rfl
      · simp at hl
    subst hfalse
    obtain ⟨hpos0, hposlen, hlo, hhi⟩ := (lookup_variable_spec s handle hs).2 pos hr
    simp only [hr]
    constructor
    · exact insertIdx_sorted hs pos.toNat
        { handle := handle, floating := fl, assigned := false, value := init }
        hposlen hlo hhi
    · intro x
      rw [List.mem_map]
      constructor
      · rintro ⟨v, hv, rfl⟩
        rcases (List.mem_insertIdx hposlen).mp hv with rfl | hv2
        · exact Or.inl rfl
        · exact Or.inr (List.mem_map.mpr ⟨v, hv2, rfl⟩)
      · rintro (rfl | hx)
        · exact ⟨{ handle := x, floating := fl, assigned := false, value := init },
            (List.mem_insertIdx hposlen).mpr (Or.inl rfl), rfl⟩
        · obtain ⟨v, hv, rfl⟩ := List.mem_map.mp hx
          exact ⟨v, (List.mem_insertIdx hposlen).mpr (Or.inr hv), rfl⟩

theorem register_all_spec (ops : List (Nat × Bool × Option Nat)) :
    ∀ (s : FilterXScope) (hp : Heap), SortedVars s.vars →
      SortedVars (register_all s hp ops).1.vars ∧
      (∀ x, x ∈ (register_all s hp ops).1.vars.map (fun v => v.handle) ↔
        ((∃ e ∈ ops, e.1 = x) ∨ x ∈ s.vars.map (fun v => v.handle))) := by
  induction ops with
  | nil =>
    intro s hp hs
    refine ⟨hs, fun x => ?_⟩
    simp [register_all]
  | cons e rest ih =>
    intro s hp hs
    have hstep := register_step s hp e.1 e.2.1 e.2.2 hs
    have hunf : register_all s hp (e :: rest) =
        register_all (filterx_scope_register_variable s hp e.1 e.2.1 e.2.2).1
          (filterx_scope_register_variable s hp e.1 e.2.1 e.2.2).2.1 rest := by
      rw [register_all, register_all, List.foldl_cons]
    rw [hunf]
    obtain ⟨hs2, hmem2⟩ := hstep
    obtain ⟨hs3, hmem3⟩ := ih _ _ hs2
    refine ⟨hs3, fun x => ?_⟩
    rw [hmem3 x, hmem2 x]
    constructor
    · rintro (⟨f, hf, rfl⟩ | rfl | hx)
      · exact Or.inl ⟨f, List.mem_cons_of_mem e hf, rfl⟩
      · exact Or.inl ⟨e, List.mem_cons_self e rest, rfl⟩
      · exact Or.inr hx
    · rintro (⟨f, hf, rfl⟩ | hx)
      · rcases List.mem_cons.mp hf with rfl | hf2
        · exact Or.inr (Or.inl rfl)
        · exact Or.inl ⟨f, hf2, rfl⟩
      · exact Or.inr (Or.inr hx)

/-! Claim theorems: the variable table. -/

/-- C10: looking up any handle in a Scope whose variable table is empty returns no
match and is well defined, even though the open-coded binary search initialises its
upper bound to the unsigned table length minus one (which converts to -1 for an
empty table): the loop body is never entered and the wrapper returns NULL. -/
theorem lookup_empty_scope_no_match (s : FilterXScope) (hempty : s.vars = [])
    (handle : Nat) :
    filterx_scope_lookup_variable s handle = none := by
  simp [filterx_scope_lookup_variable, _lookup_variable, hempty, lookup_loop]

theorem lookup_empty_scope_no_match_witness :
    (⟨[], [], false⟩ : FilterXScope).vars = [] ∧
      filterx_scope_lookup_variable ⟨[], [], false⟩ 42 = none :=
  ⟨rfl, lookup_empty_scope_no_match ⟨[], [], false⟩ rfl 42⟩

/-- C6: register is idempotent.  On a sorted table: if the handle is already
present, register returns the existing slot with scope and heap untouched (the
initial_value argument is discarded and the table size is unaffected); and a second
register with the same handle right after a first one returns the identical slot
and leaves table and heap unchanged. -/
theorem register_idempotent (s : FilterXScope) (hp : Heap) (handle : Nat)
    (fl fl2 : Bool) (init init2 : Option Nat) (hs : SortedVars s.vars) :
    (∀ idx, filterx_scope_lookup_variable s handle = some idx →
      filterx_scope_register_variable s hp handle fl init = (s, hp, idx)) ∧
    (filterx_scope_register_variable
        (filterx_scope_register_variable s hp handle fl init).1
        (filterx_scope_register_variable s hp handle fl init).2.1 handle fl2 init2 =
      ((filterx_scope_register_variable s hp handle fl init).1,
       (filterx_scope_register_variable s hp handle fl init).2.1,
       (filterx_scope_register_variable s hp handle fl init).2.2)) := by
  constructor
  · intro idx hf
    exact register_found s hp handle fl init idx hf
  · cases hl : filterx_scope_lookup_variable s handle with
    | some idx =>
      rw [register_found s hp handle fl init idx hl]
      rw [register_found s hp handle fl2 init2 idx hl]
    | none =>
      rw [register_fresh s hp handle fl init hl]
      rcases hr : _lookup_variable s handle with ⟨found, pos⟩
      have hfalse : found = false := by
        rw [filterx_scope_lookup_variable] at hl
        simp only [hr] at hl
        cases found
        · rfl
        · simp at hl
      subst hfalse
      obtain ⟨hpos0, hposlen, hlo, hhi⟩ := (lookup_variable_spec s handle hs).2 pos hr
      simp only [hr]
      set v : FilterXVariable :=
        { handle := handle, floating := fl, assigned := false, value := init } with hv
      set s1 : FilterXScope := { s with vars := s.vars.insertIdx pos.toNat v } with hs1
      have hsorted1 : SortedVars s1.vars := insertIdx_sorted hs pos.toNat v hposlen hlo hhi
      have hlen1 : s1.vars.length = s.vars.length + 1 :=
        List.length_insertIdx pos.toNat s.vars hposlen
      have hat : handleAt s1.vars pos.toNat = handle :=
        handleAt_insertIdx_self s.vars v pos.toNat hposlen
      obtain ⟨idx2, hidx2⟩ := lookup_isSome_of_mem s1 handle hsorted1 pos.toNat
        (by omega) hat
      obtain ⟨hidx2len, hidx2at⟩ := lookup_found_spec s1 handle hsorted1 idx2 hidx2
      have : idx2 = pos.toNat :=
        handleAt_inj_of_sorted hsorted1 hidx2len (by omega) (by rw [hidx2at, hat])
      subst this
      exact register_found s1 (filterx_object_ref hp init) handle fl2 init2 pos.toNat hidx2

theorem register_idempotent_witness :
    SortedVars (⟨[⟨3, false, false, none⟩, ⟨7, true, true, some 0⟩], [], false⟩
        : FilterXScope).vars ∧
      ((∀ idx, filterx_scope_lookup_variable
          ⟨[⟨3, false, false, none⟩, ⟨7, true, true, some 0⟩], [], false⟩ 5 = some idx →
        filterx_scope_register_variable
          ⟨[⟨3, false, false, none⟩, ⟨7, true, true, some 0⟩], [], false⟩
          [⟨true, false, some ([1], 4), 1⟩] 5 false none =
          (⟨[⟨3, false, false, none⟩, ⟨7, true, true, some 0⟩], [], false⟩,
           [⟨true, false, some ([1], 4), 1⟩], idx)) ∧
       (filterx_scope_register_variable
          (filterx_scope_register_variable
            ⟨[⟨3, false, false, none⟩, ⟨7, true, true, some 0⟩], [], false⟩
            [⟨true, false, some ([1], 4), 1⟩] 5 false none).1
          (filterx_scope_register_variable
            ⟨[⟨3, false, false, none⟩, ⟨7, true, true, some 0⟩], [], false⟩
            [⟨true, false, some ([1], 4), 1⟩] 5 false none).2.1 5 true (some 0) =
         ((filterx_scope_register_variable
            ⟨[⟨3, false, false, none⟩, ⟨7, true, true, some 0⟩], [], false⟩
            [⟨true, false, some ([1], 4), 1⟩] 5 false none).1,
          (filterx_scope_register_variable
            ⟨[⟨3, false, false, none⟩, ⟨7, true, true, some 0⟩], [], false⟩
            [⟨true, false, some ([1], 4), 1⟩] 5 false none).2.1,
          (filterx_scope_register_variable
            ⟨[⟨3, false, false, none⟩, ⟨7, true, true, some 0⟩], [], false⟩
            [⟨true, false, some ([1], 4), 1⟩] 5 false none).2.2))) :=
  ⟨by decide,
   register_idempotent ⟨[⟨3, false, false, none⟩, ⟨7, true, true, some 0⟩], [], false⟩
     [⟨true, false, some ([1], 4), 1⟩] 5 false true none (some 0) (by decide)⟩

/-- C7: starting from an empty Scope, any sequence of register calls with distinct
handles leaves the table strictly sorted ascending by handle (hence without
duplicate handles), lookup finds a slot holding h for every registered handle h,
and lookup returns no match for every handle never registered. -/
theorem register_distinct_sorted_lookup (hp : Heap)
    (ops : List (Nat × Bool × Option Nat))
    (hnd : (ops.map (fun e => e.1)).Nodup) :
    SortedVars (register_all filterx_scope_new hp ops).1.vars ∧
    (∀ handle, (∃ e ∈ ops, e.1 = handle) →
      ∃ idx, filterx_scope_lookup_variable (register_all filterx_scope_new hp ops).1
          handle = some idx ∧
        idx < (register_all filterx_scope_new hp ops).1.vars.length ∧
        handleAt (register_all filterx_scope_new hp ops).1.vars idx = handle) ∧
    (∀ handle, (∀ e ∈ ops, e.1 ≠ handle) →
      filterx_scope_lookup_variable (register_all filterx_scope_new hp ops).1
          handle = none) := by
  obtain ⟨hsorted, hmem⟩ := register_all_spec ops filterx_scope_new hp (by constructor)
  refine ⟨hsorted, ?_, ?_⟩
  · intro handle hex
    have : handle ∈ (register_all filterx_scope_new hp ops).1.vars.map
        (fun v => v.handle) := by
      rw [hmem handle]
      exact Or.inl hex
    obtain ⟨j, hj, hh⟩ := (mem_map_handle_iff _ handle).mp this
    obtain ⟨idx, hidx⟩ := lookup_isSome_of_mem _ handle hsorted j hj hh
    obtain ⟨h1, h2⟩ := lookup_found_spec _ handle hsorted idx hidx
    exact ⟨idx, hidx, h1, h2⟩
  · intro handle hnever
    rw [lookup_none_iff _ handle hsorted, hmem handle]
    rintro (⟨e, he, rfl⟩ | hx)
    · exact hnever e he rfl
    · simp [filterx_scope_new] at hx

theorem register_distinct_sorted_lookup_witness :
    (([(3, true, none), (1, false, some 0)] :
        List (Nat × Bool × Option Nat)).map (fun e => e.1)).Nodup ∧
      (SortedVars (register_all filterx_scope_new [⟨true, false, none, 1⟩]
          [(3, true, none), (1, false, some 0)]).1.vars ∧
       (∀ handle, (∃ e ∈ ([(3, true, none), (1, false, some 0)] :
            List (Nat × Bool × Option Nat)), e.1 = handle) →
         ∃ idx, filterx_scope_lookup_variable
             (register_all filterx_scope_new [⟨true, false, none, 1⟩]
               [(3, true, none), (1, false, some 0)]).1 handle = some idx ∧
           idx < (register_all filterx_scope_new [⟨true, false, none, 1⟩]
               [(3, true, none), (1, false, some 0)]).1.vars.length ∧
           handleAt (register_all filterx_scope_new [⟨true, false, none, 1⟩]
               [(3, true, none), (1, false, some 0)]).1.vars idx = handle) ∧
       (∀ handle, (∀ e ∈ ([(3, true, none), (1, false, some 0)] :
            List (Nat × Bool × Option Nat)), e.1 ≠ handle) →
         filterx_scope_lookup_variable
             (register_all filterx_scope_new [⟨true, false, none, 1⟩]
               [(3, true, none), (1, false, some 0)]).1 handle = none)) :=
  ⟨by decide,
   register_distinct_sorted_lookup [⟨true, false, none, 1⟩]
     [(3, true, none), (1, false, some 0)] (by decide)⟩

/-! Congruence of the per-variable sync classifiers under value-preserving heap
changes. -/

theorem modified_of_objVal {d d2 : ObjData} (h : objVal d2 = objVal d) :
    d2.modified_in_place = d.modified_in_place := congrArg (fun x => x.2.1) h

theorem marshalled_of_objVal {d d2 : ObjData} (h : objVal d2 = objVal d) :
    d2.marshalled = d.marshalled := congrArg (fun x => x.2.2) h

theorem mutable_of_objVal {d d2 : ObjData} (h : objVal d2 = objVal d) :
    d2.is_mutable = d.is_mutable := congrArg (fun x => x.1) h

theorem sync_writes_congr (hp hp2 : Heap) (w v : FilterXVariable)
    (hf : w.floating = v.floating) (ha : w.assigned = v.assigned)
    (hobs : var_obs hp2 w = var_obs hp v) :
    sync_writes hp2 w = sync_writes hp v := by
  rw [sync_writes, sync_writes, hf, ha]
  cases hw : w.value with
  | none =>
    cases hv : v.value with
    | none => rfl
    | some p =>
      exfalso
      rw [var_obs, var_obs, hw, hv] at hobs
      simp at hobs
  | some q =>
    cases hv : v.value with
    | none =>
      exfalso
      rw [var_obs, var_obs, hw, hv] at hobs
      simp at hobs
    | some p =>
      rw [var_obs, var_obs, hw, hv] at hobs
      simp at hobs
      show (!v.floating && (v.assigned || (heapGet hp2 q).modified_in_place)) =
        (!v.floating && (v.assigned || (heapGet hp p).modified_in_place))
      rw [modified_of_objVal hobs]

theorem sync_op_of_congr (hp hp2 : Heap) (w v : FilterXVariable)
    (hh : w.handle = v.handle) (hf : w.floating = v.floating)
    (ha : w.assigned = v.assigned) (hobs : var_obs hp2 w = var_obs hp v) :
    sync_op_of hp2 w = sync_op_of hp v := by
  rw [sync_op_of, sync_op_of, hh, hf, ha]
  cases hw : w.value with
  | none =>
    cases hv : v.value with
    | none => rfl
    | some p =>
      exfalso
      rw [var_obs, var_obs, hw, hv] at hobs
      simp at hobs
  | some q =>
    cases hv : v.value with
    | none =>
      exfalso
      rw [var_obs, var_obs, hw, hv] at hobs
      simp at hobs
    | some p =>
      rw [var_obs, var_obs, hw, hv] at hobs
      simp at hobs
      show (if v.floating = true then []
          else if (v.assigned || (heapGet hp2 q).modified_in_place) = true then
            match filterx_object_marshal hp2 q with
            | none => []
            | some (bytes, t) => [RecOp.set v.handle bytes t]
          else []) =
        (if v.floating = true then []
          else if (v.assigned || (heapGet hp p).modified_in_place) = true then
            match filterx_object_marshal hp p with
            | none => []
            | some (bytes, t) => [RecOp.set v.handle bytes t]
          else [])
      rw [modified_of_objVal hobs,
        show filterx_object_marshal hp2 q = filterx_object_marshal hp p from
          marshalled_of_objVal hobs]

theorem sync_var_result_congr (hp hp2 : Heap) (v : FilterXVariable)
    (hobs : var_obs hp2 v = var_obs hp v) :
    sync_var_result hp2 v = sync_var_result hp v := by
  rw [sync_var_result, sync_var_result]
  cases hv : v.value with
  | none => rfl
  | some p =>
    rw [var_obs, var_obs, hv] at hobs
    simp at hobs
    show (if v.floating = true then v
        else if (v.assigned || (heapGet hp2 p).modified_in_place) = true then
          { handle := v.handle, floating := v.floating, assigned := false, value := some p }
        else v) =
      (if v.floating = true then v
        else if (v.assigned || (heapGet hp p).modified_in_place) = true then
          { handle := v.handle, floating := v.floating, assigned := false, value := some p }
        else v)
    rw [modified_of_objVal hobs]

theorem var_obs_heapSet_ne (hp : Heap) (p : Nat) (d : ObjData) (w : FilterXVariable)
    (hne : ∀ q, w.value = some q → q ≠ p) :
    var_obs (heapSet hp p d) w = var_obs hp w := by
  rw [var_obs, var_obs]
  cases hw : w.value with
  | none => rfl
  | some q =>
    show some (objVal (heapGet (heapSet hp p d) q)) = some (objVal (heapGet hp q))
    rw [heapGet_heapSet_ne hp p q d (Ne.symm (hne q hw))]

theorem heapGet_clear_self (hp : Heap) (p : Nat) :
    heapGet (heapSet hp p { heapGet hp p with modified_in_place := false }) p =
      { heapGet hp p with modified_in_place := false } := by
  rcases Nat.lt_or_ge p hp.length with h | h
  · exact heapGet_heapSet_self hp p _ h
  · rw [heapSet, List.set_eq_of_length_le h, heapGet, List.getD_eq_default _ _ h]
    rfl

theorem flatMap_congr_mem {α β : Type} {l : List α} {f g : α → List β}
    (h : ∀ x ∈ l, f x = g x) : l.flatMap f = l.flatMap g := by
  induction l with
  | nil => rfl
  | cons a l ih =>
    rw [List.flatMap_cons, List.flatMap_cons, h a (List.mem_cons_self a l),
      ih (fun x hx => h x (List.mem_cons_of_mem a hx))]

theorem any_congr_mem {α : Type} {l : List α} {f g : α → Bool}
    (h : ∀ x ∈ l, f x = g x) : l.any f = l.any g := by
  induction l with
  | nil => rfl
  | cons a l ih =>
    rw [List.any_cons, List.any_cons, h a (List.mem_cons_self a l),
      ih (fun x hx => h x (List.mem_cons_of_mem a hx))]

/-- A pointer held by some variable of the tail is distinct from the head's pointer
when the held pointers are duplicate-free. -/
theorem tail_ptr_ne (v : FilterXVariable) (rest : List FilterXVariable) (p : Nat)
    (hv : v.value = some p)
    (hnd : ((v :: rest).filterMap (fun v => v.value)).Nodup) :
    ∀ w ∈ rest, ∀ q, w.value = some q → q ≠ p := by
  intro w hw q hq
  rw [List.filterMap_cons, hv] at hnd
  obtain ⟨hnotin, _⟩ := List.nodup_cons.mp hnd
  intro hqp
  subst hqp
  exact hnotin (List.mem_filterMap.mpr ⟨w, hw, hq⟩)

theorem nodup_ptrs_tail (v : FilterXVariable) (rest : List FilterXVariable)
    (hnd : ((v :: rest).filterMap (fun v => v.value)).Nodup) :
    (rest.filterMap (fun v => v.value)).Nodup := by
  rw [List.filterMap_cons] at hnd
  cases hv : v.value with
  | none => rw [hv] at hnd; exact hnd
  | some p => rw [hv] at hnd; exact (List.nodup_cons.mp hnd).2

/-- The heart of the sync characterisation: on a table whose held pointers are
duplicate-free and whose to-be-written values all marshal, the sync loop issues
exactly the per-variable Record operations of `sync_op_of` in table order, clears
the assigned flag per `sync_var_result`, clears the modified-in-place flag of every
written value, applies exactly the issued operations to the Record, and succeeds. -/
theorem sync_vars_spec :
    ∀ (vs : List FilterXVariable) (hp : Heap) (msg : Record),
      (vs.filterMap (fun v => v.value)).Nodup →
      MarshalOk hp vs →
      (sync_vars vs hp msg).1 = vs.flatMap (sync_op_of hp) ∧
      ∃ hp2 msg2,
        (sync_vars vs hp msg).2 = some (vs.map (sync_var_result hp), hp2, msg2) ∧
        msg2 = (vs.flatMap (sync_op_of hp)).foldl apply_rec_op msg ∧
        ∀ q : Nat, heapGet hp2 q =
          (if written_ptr hp vs q then { heapGet hp q with modified_in_place := false }
           else heapGet hp q) := by
  intro vs
  induction vs with
  | nil =>
    intro hp msg hnd hok
    refine ⟨rfl, hp, msg, rfl, rfl, ?_⟩
    intro q
    simp [written_ptr]
  | cons v rest ih =>
    intro hp msg hnd hok
    have hndrest := nodup_ptrs_tail v rest hnd
    have hokrest : MarshalOk hp rest := fun w hw hsw =>
      hok w (List.mem_cons_of_mem v hw) hsw
    by_cases hfl : v.floating = true
    · -- floating variable: skipped entirely
      have hsw : sync_writes hp v = false := by simp [sync_writes, hfl]
      have hop : sync_op_of hp v = [] := by simp [sync_op_of, hfl]
      have hsvr : sync_var_result hp v = v := by simp [sync_var_result, hfl]
      obtain ⟨hops, hp2, msg2, hsome, hmsg, hheap⟩ := ih hp msg hndrest hokrest
      refine ⟨?_, hp2, msg2, ?_, ?_, ?_⟩
      · simp only [sync_vars, hfl, if_true, hops, List.flatMap_cons, hop,
          List.nil_append]
      · simp only [sync_vars, hfl, if_true, hsome, Option.map_some', List.map_cons, hsvr]
      · rw [hmsg, List.flatMap_cons, hop, List.nil_append]
      · intro q
        rw [hheap q]
        have : written_ptr hp (v :: rest) q = written_ptr hp rest q := by
          rw [written_ptr, written_ptr, List.any_cons, hsw]
          simp
        rw [this]
    · have hflf : v.floating = false := by
        cases hcf : v.floating
        · rfl
        · exact absurd hcf hfl
      cases hv : v.value with
      | none =>
        -- absent value: unset in the Record, clear assigned
        have hsw : sync_writes hp v = false := by simp [sync_writes, hv]
        have hop : sync_op_of hp v = [RecOp.unset v.handle] := by
          simp [sync_op_of, hflf, hv]
        have hsvr : sync_var_result hp v = { v with assigned := false } := by
          simp [sync_var_result, hflf, hv]
        obtain ⟨hops, hp2, msg2, hsome, hmsg, hheap⟩ :=
          ih hp (log_msg_unset_value msg v.handle) hndrest hokrest
        refine ⟨?_, hp2, msg2, ?_, ?_, ?_⟩
        · simp only [sync_vars, hflf, Bool.false_eq_true, if_false, hv, hops,
            List.flatMap_cons, hop, List.singleton_append]
        · simp only [sync_vars, hflf, Bool.false_eq_true, if_false, hv, hsome,
            Option.map_some', List.map_cons, hsvr]
        · rw [hmsg, List.flatMap_cons, hop, List.singleton_append, List.foldl_cons]
          rfl
        · intro q
          rw [hheap q]
          have : written_ptr hp (v :: rest) q = written_ptr hp rest q := by
            rw [written_ptr, written_ptr, List.any_cons, hsw]
            simp
          rw [this]
      | some p =>
        by_cases htr : (v.assigned || (heapGet hp p).modified_in_place) = true
        · -- written back: marshal, set in the Record, clear both flags
          have hsw : sync_writes hp v = true := by
            simp [sync_writes, hflf, hv, htr]
          have hmars : (heapGet hp p).marshalled.isSome = true := by
            have := hok v (List.mem_cons_self v rest) hsw
            rw [hv] at this
            simpa using this
          obtain ⟨bt, hbt⟩ := Option.isSome_iff_exists.mp hmars
          have hop : sync_op_of hp v = [RecOp.set v.handle bt.1 bt.2] := by
            simp [sync_op_of, hflf, hv, htr, filterx_object_marshal, hbt]
          have hsvr : sync_var_result hp v = { v with assigned := false } := by
            simp [sync_var_result, hflf, hv, htr]
          have hne := tail_ptr_ne v rest p hv hnd
          set hpB := heapSet hp p
            { is_mutable := (heapGet hp p).is_mutable, modified_in_place := false,
              marshalled := some bt, refcnt := (heapGet hp p).refcnt } with hpBdef
          have hobsB : ∀ w ∈ rest, var_obs hpB w = var_obs hp w := fun w hw =>
            var_obs_heapSet_ne hp p _ w (hne w hw)
          have hgetB : ∀ w ∈ rest, ∀ q, w.value = some q →
              heapGet hpB q = heapGet hp q := by
            intro w hw q hq
            exact heapGet_heapSet_ne hp p q _ (Ne.symm (hne w hw q hq))
          have hokB : MarshalOk hpB rest := by
            intro w hw hswB
            have hsw2 : sync_writes hp w = true := by
              rw [← sync_writes_congr hp hpB w w rfl rfl (hobsB w hw)]
              exact hswB
            have := hokrest w hw hsw2
            cases hwv : w.value with
            | none => simp [hwv]
            | some q =>
              rw [hwv] at this
              simp only [Option.all_some] at this ⊢
              rw [hgetB w hw q hwv]
              exact this
          obtain ⟨hops, hp2, msg2, hsome, hmsg, hheap⟩ :=
            ih hpB (log_msg_set_value_with_type msg v.handle bt.1 bt.2) hndrest hokB
          have hopsB : rest.flatMap (sync_op_of hpB) = rest.flatMap (sync_op_of hp) :=
            flatMap_congr_mem (fun w hw =>
              sync_op_of_congr hp hpB w w rfl rfl rfl (hobsB w hw))
          have hmapB : rest.map (sync_var_result hpB) = rest.map (sync_var_result hp) :=
            List.map_congr_left (fun w hw => sync_var_result_congr hp hpB w (hobsB w hw))
          have hwrB : ∀ q, written_ptr hpB rest q = written_ptr hp rest q := by
            intro q
            rw [written_ptr, written_ptr]
            exact any_congr_mem (fun w hw => by
              rw [sync_writes_congr hp hpB w w rfl rfl (hobsB w hw)])
          have hunf : sync_vars (v :: rest) hp msg =
              (RecOp.set v.handle bt.1 bt.2 ::
                 (sync_vars rest hpB (log_msg_set_value_with_type msg v.handle bt.1 bt.2)).1,
               (sync_vars rest hpB (log_msg_set_value_with_type msg v.handle bt.1 bt.2)).2.map
                 (fun x => ({ v with assigned := false } :: x.1, x.2))) := by
            simp only [sync_vars, hflf, Bool.false_eq_true, if_false, hv, htr, if_true,
              filterx_object_marshal, hbt]
          refine ⟨?_, hp2, msg2, ?_, ?_, ?_⟩
          · rw [hunf]
            simp only [hops, hopsB, List.flatMap_cons, hop, List.singleton_append]
          · rw [hunf]
            simp only [hsome, Option.map_some', List.map_cons, hsvr, hmapB]
          · rw [hmsg, List.flatMap_cons, hop, List.singleton_append, List.foldl_cons,
              hopsB]
            rfl
          · intro q
            rw [hheap q, hwrB q]
            rcases eq_or_ne q p with rfl | hqp
            · have hwrrest : written_ptr hp rest q = false := by
                rw [written_ptr, List.any_eq_false]
                intro w hw
                simp only [Bool.and_eq_true, beq_iff_eq, not_and]
                intro _ hwq
                exact absurd rfl (hne w hw q hwq)
              have hwrcons : written_ptr hp (v :: rest) q = true := by
                rw [written_ptr, List.any_cons, hsw, hv]
                simp
              have hget_p : heapGet hpB q =
                  { is_mutable := (heapGet hp q).is_mutable, modified_in_place := false,
                    marshalled := some bt, refcnt := (heapGet hp q).refcnt } := by
                rcases Nat.lt_or_ge q hp.length with hlt | hge
                · exact heapGet_heapSet_self hp q _ hlt
                · exfalso
                  rw [show heapGet hp q = default from by
                    rw [heapGet, List.getD_eq_default _ _ hge]] at hbt
                  simp at hbt
              rw [hwrrest, hwrcons]
              simp only [Bool.false_eq_true, if_false, if_true]
              rw [hget_p, ← hbt]
            · have hgq : heapGet hpB q = heapGet hp q :=
                heapGet_heapSet_ne hp p q _ (Ne.symm hqp)
              have hwrcons : written_ptr hp (v :: rest) q = written_ptr hp rest q := by
                rw [written_ptr, written_ptr, List.any_cons, hv]
                have : (some p == some q) = false := by
                  simp
                  exact Ne.symm hqp
                rw [this]
                simp
              rw [hwrcons, hgq]
        · -- untouched: no Record operation at all
          have hsw : sync_writes hp v = false := by
            simp only [sync_writes, hv, Bool.and_eq_true, Bool.not_eq_true]
            cases h2 : (v.assigned || (heapGet hp p).modified_in_place)
            · simp
            · exact absurd h2 htr
          have hop : sync_op_of hp v = [] := by
            simp only [sync_op_of, hflf, Bool.false_eq_true, if_false, hv, htr]
          have hsvr : sync_var_result hp v = v := by
            simp only [sync_var_result, hflf, Bool.false_eq_true, if_false, hv, htr]
          obtain ⟨hops, hp2, msg2, hsome, hmsg, hheap⟩ := ih hp msg hndrest hokrest
          have hunf : sync_vars (v :: rest) hp msg =
              ((sync_vars rest hp msg).1,
               (sync_vars rest hp msg).2.map (fun x => (v :: x.1, x.2))) := by
            simp only [sync_vars, hflf, Bool.false_eq_true, if_false, hv, htr]
          refine ⟨?_, hp2, msg2, ?_, ?_, ?_⟩
          · rw [hunf]
            simp only [hops, List.flatMap_cons, hop, List.nil_append]
          · rw [hunf]
            simp only [hsome, Option.map_some', List.map_cons, hsvr]
          · rw [hmsg, List.flatMap_cons, hop, List.nil_append]
          · intro q
            rw [hheap q]
            have : written_ptr hp (v :: rest) q = written_ptr hp rest q := by
              rw [written_ptr, written_ptr, List.any_cons, hsw]
              simp
            rw [this]

/-- C1: sync_to_record processes the Variables in table order and, for each one:
skips it entirely if floating (no Record operation); if its value is absent, unsets
the handle in the Record and clears assigned; if its value is present and assigned
or modified-in-place, marshals it and writes bytes+type to the Record, then clears
the modified-in-place flag (see the final heap conjunct) and assigned; and a
non-floating variable with a present but neither assigned nor modified value
produces no Record operation.  The per-variable classifiers sync_op_of and
sync_var_result state exactly these cases; the trace lists the Record operations in
table order.  Hypotheses: the table's held pointers are duplicate-free (variables
own their values) and every to-be-written value marshals. -/
theorem sync_to_message_table_order (s : FilterXScope) (hp : Heap) (msg : Record)
    (hnd : (s.vars.filterMap (fun v => v.value)).Nodup)
    (hok : MarshalOk hp s.vars) :
    (filterx_scope_sync_to_message s hp msg).1 = s.vars.flatMap (sync_op_of hp) ∧
    ∃ hp2 msg2,
      (filterx_scope_sync_to_message s hp msg).2 =
        some ({ s with vars := s.vars.map (sync_var_result hp) }, hp2, msg2) ∧
      msg2 = (s.vars.flatMap (sync_op_of hp)).foldl apply_rec_op msg ∧
      ∀ q : Nat, heapGet hp2 q =
        (if written_ptr hp s.vars q then { heapGet hp q with modified_in_place := false }
         else heapGet hp q) := by
  obtain ⟨hops, hp2, msg2, hsome, hmsg, hheap⟩ := sync_vars_spec s.vars hp msg hnd hok
  refine ⟨?_, hp2, msg2, ?_, hmsg, hheap⟩
  · simp only [filterx_scope_sync_to_message]
    exact hops
  · simp only [filterx_scope_sync_to_message, hsome, Option.map_some']

theorem sync_to_message_table_order_witness :
    ((([⟨10, true, true, some 0⟩, ⟨11, false, true, none⟩,
        ⟨12, false, true, some 1⟩, ⟨13, false, false, some 2⟩] :
        List FilterXVariable).filterMap (fun v => v.value)).Nodup ∧
     MarshalOk [⟨false, true, some ([1], 2), 1⟩, ⟨true, false, some ([3], 4), 1⟩,
        ⟨false, false, none, 1⟩]
       [⟨10, true, true, some 0⟩, ⟨11, false, true, none⟩,
        ⟨12, false, true, some 1⟩, ⟨13, false, false, some 2⟩]) ∧
    ((filterx_scope_sync_to_message
        ⟨[⟨10, true, true, some 0⟩, ⟨11, false, true, none⟩,
          ⟨12, false, true, some 1⟩, ⟨13, false, false, some 2⟩], [], false⟩
        [⟨false, true, some ([1], 2), 1⟩, ⟨true, false, some ([3], 4), 1⟩,
         ⟨false, false, none, 1⟩] [(11, ([9], 9))]).1 =
      ([⟨10, true, true, some 0⟩, ⟨11, false, true, none⟩,
        ⟨12, false, true, some 1⟩, ⟨13, false, false, some 2⟩] :
        List FilterXVariable).flatMap
        (sync_op_of [⟨false, true, some ([1], 2), 1⟩, ⟨true, false, some ([3], 4), 1⟩,
          ⟨false, false, none, 1⟩]) ∧
     ∃ hp2 msg2,
      (filterx_scope_sync_to_message
        ⟨[⟨10, true, true, some 0⟩, ⟨11, false, true, none⟩,
          ⟨12, false, true, some 1⟩, ⟨13, false, false, some 2⟩], [], false⟩
        [⟨false, true, some ([1], 2), 1⟩, ⟨true, false, some ([3], 4), 1⟩,
         ⟨false, false, none, 1⟩] [(11, ([9], 9))]).2 =
        some ({ (⟨[⟨10, true, true, some 0⟩, ⟨11, false, true, none⟩,
            ⟨12, false, true, some 1⟩, ⟨13, false, false, some 2⟩], [], false⟩ :
              FilterXScope) with
            vars := ([⟨10, true, true, some 0⟩, ⟨11, false, true, none⟩,
              ⟨12, false, true, some 1⟩, ⟨13, false, false, some 2⟩] :
                List FilterXVariable).map
              (sync_var_result [⟨false, true, some ([1], 2), 1⟩,
                ⟨true, false, some ([3], 4), 1⟩, ⟨false, false, none, 1⟩]) },
          hp2, msg2) ∧
      msg2 = (([⟨10, true, true, some 0⟩, ⟨11, false, true, none⟩,
          ⟨12, false, true, some 1⟩, ⟨13, false, false, some 2⟩] :
            List FilterXVariable).flatMap
          (sync_op_of [⟨false, true, some ([1], 2), 1⟩, ⟨true, false, some ([3], 4), 1⟩,
            ⟨false, false, none, 1⟩])).foldl apply_rec_op [(11, ([9], 9))] ∧
      ∀ q : Nat, heapGet hp2 q =
        (if written_ptr [⟨false, true, some ([1], 2), 1⟩, ⟨true, false, some ([3], 4), 1⟩,
            ⟨false, false, none, 1⟩]
            [⟨10, true, true, some 0⟩, ⟨11, false, true, none⟩,
             ⟨12, false, true, some 1⟩, ⟨13, false, false, some 2⟩] q then
          { heapGet [⟨false, true, some ([1], 2), 1⟩, ⟨true, false, some ([3], 4), 1⟩,
              ⟨false, false, none, 1⟩] q with modified_in_place := false }
         else heapGet [⟨false, true, some ([1], 2), 1⟩, ⟨true, false, some ([3], 4), 1⟩,
            ⟨false, false, none, 1⟩] q)) :=
  ⟨⟨by decide, by decide⟩,
   sync_to_message_table_order
     ⟨[⟨10, true, true, some 0⟩, ⟨11, false, true, none⟩,
       ⟨12, false, true, some 1⟩, ⟨13, false, false, some 2⟩], [], false⟩
     [⟨false, true, some ([1], 2), 1⟩, ⟨true, false, some ([3], 4), 1⟩,
      ⟨false, false, none, 1⟩] [(11, ([9], 9))] (by decide) (by decide)⟩

/-- If a variable that sync must write fails to marshal, the loop aborts
(g_assert_not_reached, modelled as `none`) and the operation trace contains no set
for that variable's handle. -/
theorem sync_vars_abort :
    ∀ (vs : List FilterXVariable) (hp : Heap) (msg : Record),
      (vs.map (fun v => v.handle)).Nodup →
      (vs.filterMap (fun v => v.value)).Nodup →
      ∀ v ∈ vs, sync_writes hp v = true →
      ∀ p, v.value = some p → (heapGet hp p).marshalled = none →
      (sync_vars vs hp msg).2 = none ∧
      ∀ bytes t, RecOp.set v.handle bytes t ∉ (sync_vars vs hp msg).1 := by
  intro vs
  induction vs with
  | nil =>
    intro hp msg _ _ v hv
    exact absurd hv (List.not_mem_nil v)
  | cons w rest ih =>
    intro hp msg hh hnd v hv hsw p hvp hfail
    rcases List.mem_cons.mp hv with rfl | hvrest
    · have hflf : v.floating = false := by
        rw [sync_writes] at hsw
        cases hb : v.floating
        · rfl
        · rw [hb] at hsw
          simp at hsw
      have htr : (v.assigned || (heapGet hp p).modified_in_place) = true := by
        rw [sync_writes, hvp] at hsw
        simp only [Bool.and_eq_true] at hsw
        exact hsw.2
      have hunf : sync_vars (v :: rest) hp msg = ([], none) := by
        simp only [sync_vars, hflf, Bool.false_eq_true, if_false, hvp, htr, if_true,
          filterx_object_marshal, hfail]
      rw [hunf]
      exact ⟨rfl, fun bytes t => List.not_mem_nil _⟩
    · have hhrest : (rest.map (fun v => v.handle)).Nodup := (List.nodup_cons.mp hh).2
      have hndrest := nodup_ptrs_tail w rest hnd
      have hwh : w.handle ≠ v.handle := by
        intro hw
        apply (List.nodup_cons.mp hh).1
        show w.handle ∈ rest.map (fun v => v.handle)
        rw [hw]
        exact List.mem_map.mpr ⟨v, hvrest, rfl⟩
      by_cases hfl : w.floating = true
      · obtain ⟨h1, h2⟩ := ih hp msg hhrest hndrest v hvrest hsw p hvp hfail
        have hunf : sync_vars (w :: rest) hp msg =
            ((sync_vars rest hp msg).1,
             (sync_vars rest hp msg).2.map (fun x => (w :: x.1, x.2))) := by
          simp only [sync_vars, hfl, if_true]
        rw [hunf]
        exact ⟨by rw [h1]; rfl, h2⟩
      · have hflf : w.floating = false := by
          cases hb : w.floating
          · rfl
          · exact absurd hb hfl
        cases hwv : w.value with
        | none =>
          obtain ⟨h1, h2⟩ :=
            ih hp (log_msg_unset_value msg w.handle) hhrest hndrest v hvrest hsw p hvp hfail
          have hunf : sync_vars (w :: rest) hp msg =
              (RecOp.unset w.handle ::
                 (sync_vars rest hp (log_msg_unset_value msg w.handle)).1,
               (sync_vars rest hp (log_msg_unset_value msg w.handle)).2.map
                 (fun x => ({ w with assigned := false } :: x.1, x.2))) := by
            simp only [sync_vars, hflf, Bool.false_eq_true, if_false, hwv]
          rw [hunf]
          refine ⟨by rw [h1]; rfl, fun bytes t hmem => ?_⟩
          rcases List.mem_cons.mp hmem with hhead | htail
          · simp at hhead
          · exact h2 bytes t htail
        | some pw =>
          by_cases htr : (w.assigned || (heapGet hp pw).modified_in_place) = true
          · cases hbw : (heapGet hp pw).marshalled with
            | none =>
              have hunf : sync_vars (w :: rest) hp msg = ([], none) := by
                simp only [sync_vars, hflf, Bool.false_eq_true, if_false, hwv, htr,
                  if_true, filterx_object_marshal, hbw]
              rw [hunf]
              exact ⟨rfl, fun bytes t => List.not_mem_nil _⟩
            | some bt =>
              have hne := tail_ptr_ne w rest pw hwv hnd
              have hppw : p ≠ pw := hne v hvrest p hvp
              set hpB := heapSet hp pw
                { is_mutable := (heapGet hp pw).is_mutable, modified_in_place := false,
                  marshalled := some bt, refcnt := (heapGet hp pw).refcnt } with hpBdef
              have hgp : heapGet hpB p = heapGet hp p :=
                heapGet_heapSet_ne hp pw p _ (Ne.symm hppw)
              have hvq : ∀ q, v.value = some q → q ≠ pw := by
                intro q hq
                rw [hvp] at hq
                injection hq with hq2
                rw [← hq2]
                exact hppw
              have hswB : sync_writes hpB v = true := by
                rw [sync_writes_congr hp hpB v v rfl rfl
                  (var_obs_heapSet_ne hp pw _ v hvq)]
                exact hsw
              have hfailB : (heapGet hpB p).marshalled = none := by
                rw [hgp]
                exact hfail
              obtain ⟨h1, h2⟩ :=
                ih hpB (log_msg_set_value_with_type msg w.handle bt.1 bt.2)
                  hhrest hndrest v hvrest hswB p hvp hfailB
              have hunf : sync_vars (w :: rest) hp msg =
                  (RecOp.set w.handle bt.1 bt.2 ::
                     (sync_vars rest hpB
                       (log_msg_set_value_with_type msg w.handle bt.1 bt.2)).1,
                   (sync_vars rest hpB
                       (log_msg_set_value_with_type msg w.handle bt.1 bt.2)).2.map
                     (fun x => ({ w with assigned := false } :: x.1, x.2))) := by
                simp only [sync_vars, hflf, Bool.false_eq_true, if_false, hwv, htr,
                  if_true, filterx_object_marshal, hbw]
              rw [hunf]
              refine ⟨by rw [h1]; rfl, fun bytes t hmem => ?_⟩
              rcases List.mem_cons.mp hmem with hhead | htail
              · injection hhead with hx hx2 hx3
                exact hwh hx.symm
              · exact h2 bytes t htail
          · obtain ⟨h1, h2⟩ := ih hp msg hhrest hndrest v hvrest hsw p hvp hfail
            have hunf : sync_vars (w :: rest) hp msg =
                ((sync_vars rest hp msg).1,
                 (sync_vars rest hp msg).2.map (fun x => (w :: x.1, x.2))) := by
              simp only [sync_vars, hflf, Bool.false_eq_true, if_false, hwv, htr]
            rw [hunf]
            exact ⟨by rw [h1]; rfl, h2⟩

/-- C8: during sync_to_record, a marshal failure on a variable that must be written
aborts the process (the g_assert_not_reached is modelled as a `none` result), no
Record set operation is issued for that field, and no partially-synced field is
produced for it. -/
theorem sync_marshal_failure_aborts (s : FilterXScope) (hp : Heap) (msg : Record)
    (hh : (s.vars.map (fun v => v.handle)).Nodup)
    (hnd : (s.vars.filterMap (fun v => v.value)).Nodup)
    (v : FilterXVariable) (hv : v ∈ s.vars) (hsw : sync_writes hp v = true)
    (p : Nat) (hvp : v.value = some p) (hfail : (heapGet hp p).marshalled = none) :
    (filterx_scope_sync_to_message s hp msg).2 = none ∧
    ∀ bytes t, RecOp.set v.handle bytes t ∉ (filterx_scope_sync_to_message s hp msg).1 := by
  obtain ⟨h1, h2⟩ := sync_vars_abort s.vars hp msg hh hnd v hv hsw p hvp hfail
  constructor
  · simp only [filterx_scope_sync_to_message, h1, Option.map_none']
  · intro bytes t
    simp only [filterx_scope_sync_to_message]
    exact h2 bytes t

theorem sync_marshal_failure_aborts_witness :
    ((([⟨4, false, true, some 0⟩, ⟨6, false, false, some 1⟩] :
        List FilterXVariable).map (fun v => v.handle)).Nodup ∧
     (([⟨4, false, true, some 0⟩, ⟨6, false, false, some 1⟩] :
        List FilterXVariable).filterMap (fun v => v.value)).Nodup ∧
     (⟨4, false, true, some 0⟩ : FilterXVariable) ∈
       ([⟨4, false, true, some 0⟩, ⟨6, false, false, some 1⟩] : List FilterXVariable) ∧
     sync_writes [⟨false, false, none, 1⟩, ⟨false, false, some ([5], 5), 1⟩]
       ⟨4, false, true, some 0⟩ = true ∧
     (⟨4, false, true, some 0⟩ : FilterXVariable).value = some 0 ∧
     (heapGet [⟨false, false, none, 1⟩, ⟨false, false, some ([5], 5), 1⟩] 0).marshalled =
       none) ∧
    ((filterx_scope_sync_to_message
        ⟨[⟨4, false, true, some 0⟩, ⟨6, false, false, some 1⟩], [], false⟩
        [⟨false, false, none, 1⟩, ⟨false, false, some ([5], 5), 1⟩] []).2 = none ∧
     ∀ bytes t, RecOp.set (⟨4, false, true, some 0⟩ : FilterXVariable).handle bytes t ∉
       (filterx_scope_sync_to_message
         ⟨[⟨4, false, true, some 0⟩, ⟨6, false, false, some 1⟩], [], false⟩
         [⟨false, false, none, 1⟩, ⟨false, false, some ([5], 5), 1⟩] []).1) :=
  ⟨⟨by decide, by decide, by decide, by decide, by decide, by decide⟩,
   sync_marshal_failure_aborts
     ⟨[⟨4, false, true, some 0⟩, ⟨6, false, false, some 1⟩], [], false⟩
     [⟨false, false, none, 1⟩, ⟨false, false, some ([5], 5), 1⟩] []
     (by decide) (by decide) ⟨4, false, true, some 0⟩ (by decide) (by decide)
     0 (by decide) (by decide)⟩

/-! Clone correctness. -/

theorem ptrs_valid_iff (hp : Heap) (vs : List FilterXVariable) :
    PtrsValid hp vs ↔ ∀ v ∈ vs, ∀ p, v.value = some p → p < hp.length := by
  constructor
  · intro h v hv p hvp
    have := h v hv
    rw [hvp] at this
    simpa using this
  · intro h v hv
    cases hv2 : v.value with
    | none => simp
    | some p => simpa using h v hv p hv2

theorem marshal_ok_iff (hp : Heap) (vs : List FilterXVariable) :
    MarshalOk hp vs ↔ ∀ v ∈ vs, sync_writes hp v = true →
      ∀ p, v.value = some p → (heapGet hp p).marshalled.isSome = true := by
  constructor
  · intro h v hv hsw p hvp
    have := h v hv hsw
    rw [hvp] at this
    simpa using this
  · intro h v hv hsw
    cases hv2 : v.value with
    | none => simp
    | some p => simpa using h v hv hsw p hv2

theorem heapGet_append_self (hp : Heap) (x : ObjData) :
    heapGet (hp ++ [x]) hp.length = x := by
  rw [heapGet, List.getD_eq_getElem?_getD, List.getElem?_concat_length]
  rfl

theorem heapGet_append_lt (hp : Heap) (x : ObjData) (q : Nat) (h : q < hp.length) :
    heapGet (hp ++ [x]) q = heapGet hp q := by
  rw [heapGet, heapGet, List.getD_eq_getElem?_getD, List.getD_eq_getElem?_getD,
    List.getElem?_append_left h]

theorem var_obs_ref (hp : Heap) (o : Option Nat) (w : FilterXVariable) :
    var_obs (filterx_object_ref hp o) w = var_obs hp w := by
  rw [var_obs, var_obs]
  cases hw : w.value with
  | none => rfl
  | some q =>
    show some (objVal (heapGet (filterx_object_ref hp o) q)) =
      some (objVal (heapGet hp q))
    rw [objVal_ref]

theorem var_obs_append (hp : Heap) (x : ObjData) (w : FilterXVariable)
    (hval : ∀ q, w.value = some q → q < hp.length) :
    var_obs (hp ++ [x]) w = var_obs hp w := by
  rw [var_obs, var_obs]
  cases hw : w.value with
  | none => rfl
  | some q =>
    show some (objVal (heapGet (hp ++ [x]) q)) = some (objVal (heapGet hp q))
    rw [heapGet_append_lt hp x q (hval q hw)]

theorem clone_vars_heap_mono :
    ∀ (vs : List FilterXVariable) (hp : Heap),
      hp.length ≤ (clone_vars vs hp).2.length := by
  intro vs
  induction vs with
  | nil =>
    intro hp
    exact le_refl _
  | cons v rest ih =>
    intro hp
    have h1 : hp.length ≤ (filterx_object_clone hp v.value).1.length := by
      cases hv : v.value with
      | none => simp [filterx_object_clone]
      | some pv =>
        simp only [filterx_object_clone]
        by_cases hm : (heapGet hp pv).is_mutable = true
        · simp [hm]
        · simp [hm, filterx_object_ref_length]
    have h2 : (filterx_object_clone hp v.value).1.length ≤
        (clone_vars rest (filterx_object_clone hp v.value).1).2.length :=
      ih (filterx_object_clone hp v.value).1
    have hunf : (clone_vars (v :: rest) hp).2 =
        (clone_vars rest (filterx_object_clone hp v.value).1).2 := by
      simp only [clone_vars]
    rw [hunf]
    omega

/-- The clone loop: same length, flags and handles preserved slot by slot, observable
values preserved, the original heap entries value-preserved, and every cloned
pointer either shares an immutable original value or is fresh. -/
theorem clone_vars_spec :
    ∀ (vs : List FilterXVariable) (hp : Heap),
      PtrsValid hp vs →
      (clone_vars vs hp).1.length = vs.length ∧
      hp.length ≤ (clone_vars vs hp).2.length ∧
      (∀ q, q < hp.length →
        objVal (heapGet (clone_vars vs hp).2 q) = objVal (heapGet hp q)) ∧
      List.Forall₂ (fun w v => w.handle = v.handle ∧ w.floating = v.floating ∧
          w.assigned = v.assigned ∧
          var_obs (clone_vars vs hp).2 w = var_obs hp v ∧
          (∀ p2, w.value = some p2 → p2 < (clone_vars vs hp).2.length ∧
            (p2 < hp.length → (v.value = some p2 ∧ (heapGet hp p2).is_mutable = false))))
        (clone_vars vs hp).1 vs := by
  intro vs
  induction vs with
  | nil =>
    intro hp _
    exact ⟨rfl, le_refl _, fun q _ => rfl, List.Forall₂.nil⟩
  | cons v rest ih =>
    intro hp hval
    have hvalrest : PtrsValid hp rest := fun w hw => hval w (List.mem_cons_of_mem v hw)
    have hvalrest2 := (ptrs_valid_iff hp rest).mp hvalrest
    cases hv : v.value with
    | none =>
      have hc : filterx_object_clone hp v.value = (hp, none) := by
        rw [hv]
        rfl
      have hunf : clone_vars (v :: rest) hp =
          ({ v with value := none } :: (clone_vars rest hp).1,
           (clone_vars rest hp).2) := by
        simp only [clone_vars, hc]
      obtain ⟨ihlen, ihle, ihobs, ihfa⟩ := ih hp hvalrest
      rw [hunf]
      dsimp only
      refine ⟨by simp [ihlen], ihle, ihobs, ?_⟩
      refine List.Forall₂.cons ⟨rfl, rfl, rfl, ?_, ?_⟩ ihfa
      · rw [var_obs, var_obs, hv]
        rfl
      · intro p2 hp2
        exact Option.noConfusion hp2
    | some pv =>
      have hpv : pv < hp.length := by
        have := hval v (List.mem_cons_self v rest)
        rw [hv] at this
        simpa using this
      by_cases hm : (heapGet hp pv).is_mutable = true
      · -- mutable value: deep copy at a fresh address
        have hc : filterx_object_clone hp v.value =
            (hp ++ [{ is_mutable := (heapGet hp pv).is_mutable, modified_in_place := (heapGet hp pv).modified_in_place, marshalled := (heapGet hp pv).marshalled, refcnt := 1 }], some hp.length) := by
          rw [hv]
          simp [filterx_object_clone, hm]
        have hunf : clone_vars (v :: rest) hp =
            ({ v with value := some hp.length } ::
               (clone_vars rest (hp ++ [{ is_mutable := (heapGet hp pv).is_mutable, modified_in_place := (heapGet hp pv).modified_in_place, marshalled := (heapGet hp pv).marshalled, refcnt := 1 }])).1,
             (clone_vars rest (hp ++ [{ is_mutable := (heapGet hp pv).is_mutable, modified_in_place := (heapGet hp pv).modified_in_place, marshalled := (heapGet hp pv).marshalled, refcnt := 1 }])).2) := by
          simp only [clone_vars, hc]
        have hlenA : (hp ++ [{ is_mutable := (heapGet hp pv).is_mutable, modified_in_place := (heapGet hp pv).modified_in_place, marshalled := (heapGet hp pv).marshalled, refcnt := 1 }] : Heap).length =
            hp.length + 1 := by simp
        have hvalA : PtrsValid (hp ++ [{ is_mutable := (heapGet hp pv).is_mutable, modified_in_place := (heapGet hp pv).modified_in_place, marshalled := (heapGet hp pv).marshalled, refcnt := 1 }]) rest := by
          rw [ptrs_valid_iff]
          intro w hw q hq
          have := hvalrest2 w hw q hq
          rw [hlenA]
          omega
        obtain ⟨ihlen, ihle, ihobs, ihfa⟩ :=
          ih (hp ++ [{ is_mutable := (heapGet hp pv).is_mutable, modified_in_place := (heapGet hp pv).modified_in_place, marshalled := (heapGet hp pv).marshalled, refcnt := 1 }]) hvalA
        rw [hunf]
        dsimp only
        rw [hlenA] at ihle
        have hgoal2 : hp.length ≤ (clone_vars rest (hp ++ [{ is_mutable := (heapGet hp pv).is_mutable, modified_in_place := (heapGet hp pv).modified_in_place, marshalled := (heapGet hp pv).marshalled, refcnt := 1 }])).2.length :=
          le_trans (Nat.le_succ _) ihle
        refine ⟨by simp [ihlen], hgoal2, ?_, ?_⟩
        · intro q hq
          have hqA : q < (hp ++ [{ is_mutable := (heapGet hp pv).is_mutable, modified_in_place := (heapGet hp pv).modified_in_place, marshalled := (heapGet hp pv).marshalled, refcnt := 1 }] : Heap).length := by
            rw [hlenA]
            omega
          rw [ihobs q hqA, heapGet_append_lt hp _ q hq]
        · refine List.Forall₂.cons ⟨rfl, rfl, rfl, ?_, ?_⟩ ?_
          · show var_obs _ { v with value := some hp.length } = var_obs hp v
            rw [var_obs, var_obs, hv]
            show some (objVal (heapGet (clone_vars rest
                (hp ++ [{ is_mutable := (heapGet hp pv).is_mutable, modified_in_place := (heapGet hp pv).modified_in_place, marshalled := (heapGet hp pv).marshalled, refcnt := 1 }])).2 hp.length)) =
              some (objVal (heapGet hp pv))
            have hqA : hp.length < (hp ++ [{ is_mutable := (heapGet hp pv).is_mutable, modified_in_place := (heapGet hp pv).modified_in_place, marshalled := (heapGet hp pv).marshalled, refcnt := 1 }] : Heap).length := by
              rw [hlenA]
              omega
            rw [ihobs hp.length hqA, heapGet_append_self]
            rfl
          · intro p2 hp2
            have hp2e : p2 = hp.length := by
              have : some hp.length = some p2 := hp2
              injection this with h2
              omega
            subst hp2e
            refine ⟨by omega, ?_⟩
            intro habs
            omega
          · rw [List.forall₂_iff_get] at ihfa ⊢
            obtain ⟨ihfalen, ihfaget⟩ := ihfa
            refine ⟨ihfalen, ?_⟩
            intro i h1 h2
            obtain ⟨hha, hfa, haa, hoa, hca⟩ := ihfaget i h1 h2
            have hmem : rest.get ⟨i, h2⟩ ∈ rest := List.get_mem rest i h2
            refine ⟨hha, hfa, haa, ?_, ?_⟩
            · rw [hoa, var_obs_append hp _ (rest.get ⟨i, h2⟩)
                (fun q hq => hvalrest2 (rest.get ⟨i, h2⟩) hmem q hq)]
            · intro p2 hp2
              obtain ⟨hcl1, hcl2⟩ := hca p2 hp2
              refine ⟨hcl1, ?_⟩
              intro hlt
              obtain ⟨he1, he2⟩ := hcl2 (by omega)
              refine ⟨he1, ?_⟩
              rw [← heapGet_append_lt hp ({ is_mutable := (heapGet hp pv).is_mutable, modified_in_place := (heapGet hp pv).modified_in_place, marshalled := (heapGet hp pv).marshalled, refcnt := 1 }) p2 hlt]
              exact he2
      · -- immutable value: share the address, take a reference
        have hmf : (heapGet hp pv).is_mutable = false := by
          cases hb : (heapGet hp pv).is_mutable
          · rfl
          · exact absurd hb hm
        have hc : filterx_object_clone hp v.value =
            (filterx_object_ref hp (some pv), some pv) := by
          rw [hv]
          simp [filterx_object_clone, hmf]
        have hunf : clone_vars (v :: rest) hp =
            ({ v with value := some pv } ::
               (clone_vars rest (filterx_object_ref hp (some pv))).1,
             (clone_vars rest (filterx_object_ref hp (some pv))).2) := by
          simp only [clone_vars, hc]
        have hlenA : (filterx_object_ref hp (some pv)).length = hp.length :=
          filterx_object_ref_length hp (some pv)
        have hvalA : PtrsValid (filterx_object_ref hp (some pv)) rest := by
          rw [ptrs_valid_iff]
          intro w hw q hq
          have := hvalrest2 w hw q hq
          omega
        obtain ⟨ihlen, ihle, ihobs, ihfa⟩ := ih (filterx_object_ref hp (some pv)) hvalA
        rw [hunf]
        dsimp only
        rw [hlenA] at ihle
        refine ⟨by simp [ihlen], by omega, ?_, ?_⟩
        · intro q hq
          have hqA : q < (filterx_object_ref hp (some pv)).length := by
            rw [hlenA]
            omega
          rw [ihobs q hqA, objVal_ref]
        · refine List.Forall₂.cons ⟨rfl, rfl, rfl, ?_, ?_⟩ ?_
          · show var_obs _ { v with value := some pv } = var_obs hp v
            rw [var_obs, var_obs, hv]
            show some (objVal (heapGet (clone_vars rest
                (filterx_object_ref hp (some pv))).2 pv)) =
              some (objVal (heapGet hp pv))
            have hqA : pv < (filterx_object_ref hp (some pv)).length := by
              rw [hlenA]
              omega
            rw [ihobs pv hqA, objVal_ref]
          · intro p2 hp2
            have hp2e : p2 = pv := by
              have : some pv = some p2 := hp2
              injection this with h2
              omega
            subst hp2e
            exact ⟨by omega, fun _ => ⟨hv, hmf⟩⟩
          · rw [List.forall₂_iff_get] at ihfa ⊢
            obtain ⟨ihfalen, ihfaget⟩ := ihfa
            refine ⟨ihfalen, ?_⟩
            intro i h1 h2
            obtain ⟨hha, hfa, haa, hoa, hca⟩ := ihfaget i h1 h2
            refine ⟨hha, hfa, haa, ?_, ?_⟩
            · rw [hoa, var_obs_ref]
            · intro p2 hp2
              obtain ⟨hcl1, hcl2⟩ := hca p2 hp2
              refine ⟨hcl1, ?_⟩
              intro hlt
              obtain ⟨he1, he2⟩ := hcl2 (by omega)
              refine ⟨he1, ?_⟩
              rw [← mutable_of_objVal (objVal_ref hp (some pv) p2)]
              exact he2

/-- Cloning preserves duplicate-freedom of the held pointers, and every cloned
pointer is a valid address of the final heap; cloned pointers below the original
heap length are original pointers. -/
theorem clone_vars_nodup :
    ∀ (vs : List FilterXVariable) (hp : Heap),
      PtrsValid hp vs →
      (vs.filterMap (fun v => v.value)).Nodup →
      ((clone_vars vs hp).1.filterMap (fun v => v.value)).Nodup ∧
      (∀ p2 ∈ (clone_vars vs hp).1.filterMap (fun v => v.value),
        p2 < (clone_vars vs hp).2.length ∧
        (p2 < hp.length → p2 ∈ vs.filterMap (fun v => v.value))) := by
  intro vs
  induction vs with
  | nil =>
    intro hp _ _
    exact ⟨List.nodup_nil, fun p2 hp2 => absurd hp2 (List.not_mem_nil p2)⟩
  | cons v rest ih =>
    intro hp hval hnd
    have hvalrest : PtrsValid hp rest := fun w hw => hval w (List.mem_cons_of_mem v hw)
    have hvalrest2 := (ptrs_valid_iff hp rest).mp hvalrest
    have hndrest := nodup_ptrs_tail v rest hnd
    cases hv : v.value with
    | none =>
      have hc : filterx_object_clone hp v.value = (hp, none) := by
        rw [hv]
        rfl
      have hunf : clone_vars (v :: rest) hp =
          ({ v with value := none } :: (clone_vars rest hp).1,
           (clone_vars rest hp).2) := by
        simp only [clone_vars, hc]
      obtain ⟨ih1, ih2⟩ := ih hp hvalrest hndrest
      rw [hunf]
      dsimp only
      rw [List.filterMap_cons]
      constructor
      · exact ih1
      · intro p2 hp2
        obtain ⟨h1, h2⟩ := ih2 p2 hp2
        refine ⟨h1, fun hlt => ?_⟩
        rw [List.filterMap_cons, hv]
        exact h2 hlt
    | some pv =>
      have hpv : pv < hp.length := by
        have := hval v (List.mem_cons_self v rest)
        rw [hv] at this
        simpa using this
      have hfm : (v :: rest).filterMap (fun v => v.value) =
          pv :: rest.filterMap (fun v => v.value) := by
        rw [List.filterMap_cons, hv]
      have hpvnotin : pv ∉ rest.filterMap (fun v => v.value) := by
        rw [hfm] at hnd
        exact (List.nodup_cons.mp hnd).1
      by_cases hm : (heapGet hp pv).is_mutable = true
      · have hc : filterx_object_clone hp v.value =
            (hp ++ [{ is_mutable := (heapGet hp pv).is_mutable, modified_in_place := (heapGet hp pv).modified_in_place, marshalled := (heapGet hp pv).marshalled, refcnt := 1 }], some hp.length) := by
          rw [hv]
          simp [filterx_object_clone, hm]
        have hunf : clone_vars (v :: rest) hp =
            ({ v with value := some hp.length } ::
               (clone_vars rest (hp ++ [{ is_mutable := (heapGet hp pv).is_mutable, modified_in_place := (heapGet hp pv).modified_in_place, marshalled := (heapGet hp pv).marshalled, refcnt := 1 }])).1,
             (clone_vars rest (hp ++ [{ is_mutable := (heapGet hp pv).is_mutable, modified_in_place := (heapGet hp pv).modified_in_place, marshalled := (heapGet hp pv).marshalled, refcnt := 1 }])).2) := by
          simp only [clone_vars, hc]
        have hlenA : (hp ++ [{ is_mutable := (heapGet hp pv).is_mutable, modified_in_place := (heapGet hp pv).modified_in_place, marshalled := (heapGet hp pv).marshalled, refcnt := 1 }] : Heap).length =
            hp.length + 1 := by simp
        have hvalA : PtrsValid (hp ++ [{ is_mutable := (heapGet hp pv).is_mutable, modified_in_place := (heapGet hp pv).modified_in_place, marshalled := (heapGet hp pv).marshalled, refcnt := 1 }]) rest := by
          rw [ptrs_valid_iff]
          intro w hw q hq
          have h2 := hvalrest2 w hw q hq
          rw [hlenA]
          omega
        obtain ⟨ih1, ih2⟩ := ih (hp ++ [{ is_mutable := (heapGet hp pv).is_mutable, modified_in_place := (heapGet hp pv).modified_in_place, marshalled := (heapGet hp pv).marshalled, refcnt := 1 }]) hvalA hndrest
        have hmono := clone_vars_heap_mono rest (hp ++ [{ is_mutable := (heapGet hp pv).is_mutable, modified_in_place := (heapGet hp pv).modified_in_place, marshalled := (heapGet hp pv).marshalled, refcnt := 1 }])
        rw [hlenA] at hmono
        rw [hunf]
        dsimp only
        rw [List.filterMap_cons]
        constructor
        · show (hp.length :: (clone_vars rest (hp ++ [{ is_mutable := (heapGet hp pv).is_mutable, modified_in_place := (heapGet hp pv).modified_in_place, marshalled := (heapGet hp pv).marshalled, refcnt := 1 }])).1.filterMap (fun v => v.value)).Nodup
          rw [List.nodup_cons]
          refine ⟨?_, ih1⟩
          intro hmem
          obtain ⟨_, h2⟩ := ih2 hp.length hmem
          have := h2 (by rw [hlenA]; omega)
          obtain ⟨w, hw, hwv⟩ := List.mem_filterMap.mp this
          have := hvalrest2 w hw hp.length hwv
          omega
        · intro p2 hp2
          have hp2b : p2 ∈ hp.length :: (clone_vars rest (hp ++ [{ is_mutable := (heapGet hp pv).is_mutable, modified_in_place := (heapGet hp pv).modified_in_place, marshalled := (heapGet hp pv).marshalled, refcnt := 1 }])).1.filterMap (fun v => v.value) := hp2
          rcases List.mem_cons.mp hp2b with rfl | hp2m
          · refine ⟨by omega, fun habs => absurd habs (by omega)⟩
          · obtain ⟨h1, h2⟩ := ih2 p2 hp2m
            refine ⟨h1, fun hlt => ?_⟩
            rw [hfm]
            exact List.mem_cons_of_mem pv (h2 (by rw [hlenA]; omega))
      · have hmf : (heapGet hp pv).is_mutable = false := by
          cases hb : (heapGet hp pv).is_mutable
          · rfl
          · exact absurd hb hm
        have hc : filterx_object_clone hp v.value =
            (filterx_object_ref hp (some pv), some pv) := by
          rw [hv]
          simp [filterx_object_clone, hmf]
        have hunf : clone_vars (v :: rest) hp =
            ({ v with value := some pv } ::
               (clone_vars rest (filterx_object_ref hp (some pv))).1,
             (clone_vars rest (filterx_object_ref hp (some pv))).2) := by
          simp only [clone_vars, hc]
        have hlenA : (filterx_object_ref hp (some pv)).length = hp.length :=
          filterx_object_ref_length hp (some pv)
        have hvalA : PtrsValid (filterx_object_ref hp (some pv)) rest := by
          rw [ptrs_valid_iff]
          intro w hw q hq
          have h2 := hvalrest2 w hw q hq
          rw [hlenA]
          omega
        obtain ⟨ih1, ih2⟩ := ih (filterx_object_ref hp (some pv)) hvalA hndrest
        have hmono := clone_vars_heap_mono rest (filterx_object_ref hp (some pv))
        rw [hlenA] at hmono
        rw [hunf]
        dsimp only
        rw [List.filterMap_cons]
        constructor
        · show (pv :: (clone_vars rest (filterx_object_ref hp (some pv))).1.filterMap
              (fun v => v.value)).Nodup
          rw [List.nodup_cons]
          refine ⟨?_, ih1⟩
          intro hmem
          obtain ⟨_, h2⟩ := ih2 pv hmem
          exact hpvnotin (h2 (by rw [hlenA]; omega))
        · intro p2 hp2
          have hp2b : p2 ∈ pv :: (clone_vars rest (filterx_object_ref hp (some pv))).1.filterMap
              (fun v => v.value) := hp2
          rcases List.mem_cons.mp hp2b with rfl | hp2m
          · refine ⟨by omega, fun _ => ?_⟩
            rw [hfm]
            exact List.mem_cons_self _ _
          · obtain ⟨h1, h2⟩ := ih2 p2 hp2m
            refine ⟨h1, fun hlt => ?_⟩
            rw [hfm]
            exact List.mem_cons_of_mem pv (h2 (by rw [hlenA]; omega))

theorem map_handle_eq_of_forall2 {l1 l2 : List FilterXVariable}
    (h : List.Forall₂ (fun w v => w.handle = v.handle) l1 l2) :
    l1.map (fun v => v.handle) = l2.map (fun v => v.handle) := by
  induction h with
  | nil => rfl
  | cons h1 _ ih => simp only [List.map_cons, h1, ih]

theorem flatMap_eq_of_forall2 {α β : Type} {l1 l2 : List α} (f1 f2 : α → List β)
    (h : List.Forall₂ (fun a b => f1 a = f2 b) l1 l2) :
    l1.flatMap f1 = l2.flatMap f2 := by
  induction h with
  | nil => rfl
  | cons h1 _ ih => rw [List.flatMap_cons, List.flatMap_cons, h1, ih]

theorem var_obs_some {hp hp2 : Heap} {w v : FilterXVariable} {p2 : Nat}
    (hobs : var_obs hp2 w = var_obs hp v) (hw : w.value = some p2) :
    ∃ pv, v.value = some pv ∧ objVal (heapGet hp2 p2) = objVal (heapGet hp pv) := by
  rw [var_obs, var_obs, hw] at hobs
  cases hv : v.value with
  | none =>
    rw [hv] at hobs
    simp at hobs
  | some pv =>
    rw [hv] at hobs
    simp at hobs
    exact ⟨pv, rfl, hobs⟩

theorem var_obs_none_iff {hp hp2 : Heap} {w v : FilterXVariable}
    (hobs : var_obs hp2 w = var_obs hp v) : (w.value = none ↔ v.value = none) := by
  rw [var_obs, var_obs] at hobs
  cases hw : w.value with
  | none =>
    cases hv : v.value with
    | none => simp
    | some pv =>
      rw [hw, hv] at hobs
      simp at hobs
  | some p2 =>
    cases hv : v.value with
    | none =>
      rw [hw, hv] at hobs
      simp at hobs
    | some pv => simp

/-- C3: make_writable on a write-protected Scope replaces the shared reference with
a full clone: same handles in the same order; value-equal contents slot by slot
(every held Value deep-cloned per the Value clone contract; the original heap
entries keep their observable values); no weak refs copied; and no mutable value is
shared between clone and original, so subsequent in-place mutation of either side
(possible only on mutable values) is never observable in the other.  On a Scope
that is not write-protected, make_writable returns the same Scope and heap
unchanged.  (The release of the old reference is scope-struct reference counting,
outside the modelled table state.) -/
theorem make_writable_cow (s : FilterXScope) (hp : Heap)
    (hvalid : PtrsValid hp s.vars) :
    (s.write_protected = false → filterx_scope_make_writable s hp = (s, hp)) ∧
    (s.write_protected = true →
      (filterx_scope_make_writable s hp).1.vars.map (fun v => v.handle) =
        s.vars.map (fun v => v.handle) ∧
      (filterx_scope_make_writable s hp).1.weak_refs = [] ∧
      (filterx_scope_make_writable s hp).1.write_protected = false ∧
      (filterx_scope_make_writable s hp).1.vars.length = s.vars.length ∧
      (∀ i, i < s.vars.length →
        var_obs (filterx_scope_make_writable s hp).2
            ((filterx_scope_make_writable s hp).1.vars.getD i default) =
          var_obs hp (s.vars.getD i default)) ∧
      (∀ q, q < hp.length →
        objVal (heapGet (filterx_scope_make_writable s hp).2 q) =
          objVal (heapGet hp q)) ∧
      (∀ p2, HeldBy (filterx_scope_make_writable s hp).1.vars p2 →
        HeldBy s.vars p2 →
        (heapGet (filterx_scope_make_writable s hp).2 p2).is_mutable = false)) := by
  constructor
  · intro hnp
    simp [filterx_scope_make_writable, hnp]
  · intro hprot
    have hmw : filterx_scope_make_writable s hp = filterx_scope_clone s hp := by
      simp [filterx_scope_make_writable, hprot]
    have hcl : filterx_scope_clone s hp =
        ({ vars := (clone_vars s.vars hp).1, weak_refs := [], write_protected := false },
         (clone_vars s.vars hp).2) := by
      simp [filterx_scope_clone, filterx_scope_new]
    rw [hmw, hcl]
    dsimp only
    obtain ⟨hlen, hle, hobs, hfa⟩ := clone_vars_spec s.vars hp hvalid
    rw [List.forall₂_iff_get] at hfa
    obtain ⟨hfalen, hfaget⟩ := hfa
    refine ⟨?_, rfl, rfl, hlen, ?_, hobs, ?_⟩
    · apply map_handle_eq_of_forall2
      rw [List.forall₂_iff_get]
      exact ⟨hfalen, fun i h1 h2 => (hfaget i h1 h2).1⟩
    · intro i hi
      have hi1 : i < (clone_vars s.vars hp).1.length := by omega
      obtain ⟨_, _, _, ho, _⟩ := hfaget i hi1 hi
      rw [List.getD_eq_getElem _ _ hi1, List.getD_eq_getElem _ _ hi]
      exact ho
    · rintro p2 ⟨w, hw, hwp⟩ ⟨v0, hv0, hv0p⟩
      have hp2lt : p2 < hp.length := (ptrs_valid_iff hp s.vars).mp hvalid v0 hv0 p2 hv0p
      obtain ⟨i, hi, hwi⟩ := List.mem_iff_getElem.mp hw
      have hi2 : i < s.vars.length := by omega
      obtain ⟨_, _, _, _, hcl2⟩ := hfaget i hi hi2
      have hwv : ((clone_vars s.vars hp).1.get ⟨i, hi⟩).value = some p2 := by
        show ((clone_vars s.vars hp).1)[i].value = some p2
        rw [hwi]
        exact hwp
      obtain ⟨_, himpl⟩ := hcl2 p2 hwv
      obtain ⟨_, hmut⟩ := himpl hp2lt
      rw [mutable_of_objVal (hobs p2 hp2lt)]
      exact hmut

theorem make_writable_cow_witness :
    PtrsValid exHeapA exScopeA.vars ∧
    ((exScopeA.write_protected = false →
        filterx_scope_make_writable exScopeA exHeapA = (exScopeA, exHeapA)) ∧
     (exScopeA.write_protected = true →
        (filterx_scope_make_writable exScopeA exHeapA).1.vars.map (fun v => v.handle) =
          exScopeA.vars.map (fun v => v.handle) ∧
        (filterx_scope_make_writable exScopeA exHeapA).1.weak_refs = [] ∧
        (filterx_scope_make_writable exScopeA exHeapA).1.write_protected = false ∧
        (filterx_scope_make_writable exScopeA exHeapA).1.vars.length =
          exScopeA.vars.length ∧
        (∀ i, i < exScopeA.vars.length →
          var_obs (filterx_scope_make_writable exScopeA exHeapA).2
              ((filterx_scope_make_writable exScopeA exHeapA).1.vars.getD i default) =
            var_obs exHeapA (exScopeA.vars.getD i default)) ∧
        (∀ q, q < exHeapA.length →
          objVal (heapGet (filterx_scope_make_writable exScopeA exHeapA).2 q) =
            objVal (heapGet exHeapA q)) ∧
        (∀ p2, HeldBy (filterx_scope_make_writable exScopeA exHeapA).1.vars p2 →
          HeldBy exScopeA.vars p2 →
          (heapGet (filterx_scope_make_writable exScopeA exHeapA).2 p2).is_mutable =
            false))) :=
  ⟨by decide, make_writable_cow exScopeA exHeapA (by decide)⟩

/-- C9: cloning a write-protected Scope (via make_writable) preserves each
variable's handle, floating and assigned flags along with its position and value
presence — so a pending assignment or pending whiteout in the original drives
exactly the same sync_to_record operation trace in the clone as in the original. -/
theorem clone_preserves_flags_and_sync (s : FilterXScope) (hp : Heap) (msg : Record)
    (hprot : s.write_protected = true)
    (hvalid : PtrsValid hp s.vars)
    (hnd : (s.vars.filterMap (fun v => v.value)).Nodup)
    (hok : MarshalOk hp s.vars) :
    (filterx_scope_make_writable s hp).1.vars.length = s.vars.length ∧
    (∀ i, i < s.vars.length →
      ((filterx_scope_make_writable s hp).1.vars.getD i default).handle =
        (s.vars.getD i default).handle ∧
      ((filterx_scope_make_writable s hp).1.vars.getD i default).floating =
        (s.vars.getD i default).floating ∧
      ((filterx_scope_make_writable s hp).1.vars.getD i default).assigned =
        (s.vars.getD i default).assigned ∧
      (((filterx_scope_make_writable s hp).1.vars.getD i default).value = none ↔
        (s.vars.getD i default).value = none)) ∧
    (filterx_scope_sync_to_message (filterx_scope_make_writable s hp).1
        (filterx_scope_make_writable s hp).2 msg).1 =
      (filterx_scope_sync_to_message s hp msg).1 := by
  have hmw : filterx_scope_make_writable s hp = filterx_scope_clone s hp := by
    simp [filterx_scope_make_writable, hprot]
  have hcl : filterx_scope_clone s hp =
      ({ vars := (clone_vars s.vars hp).1, weak_refs := [], write_protected := false },
       (clone_vars s.vars hp).2) := by
    simp [filterx_scope_clone, filterx_scope_new]
  rw [hmw, hcl]
  dsimp only
  obtain ⟨hlen, hle, hobs, hfa⟩ := clone_vars_spec s.vars hp hvalid
  rw [List.forall₂_iff_get] at hfa
  obtain ⟨hfalen, hfaget⟩ := hfa
  obtain ⟨hndc, hptrs⟩ := clone_vars_nodup s.vars hp hvalid hnd
  have hokc : MarshalOk (clone_vars s.vars hp).2 (clone_vars s.vars hp).1 := by
    rw [marshal_ok_iff]
    intro w hw hsw p2 hwp
    obtain ⟨i, hi, hwi⟩ := List.mem_iff_getElem.mp hw
    have hi2 : i < s.vars.length := by omega
    obtain ⟨hha, hfl, has, ho, _⟩ := hfaget i hi hi2
    have hgeti : (clone_vars s.vars hp).1.get ⟨i, hi⟩ = w := hwi
    rw [hgeti] at hfl has ho
    have hswv : sync_writes hp (s.vars.get ⟨i, hi2⟩) = true := by
      rw [← sync_writes_congr hp (clone_vars s.vars hp).2 w (s.vars.get ⟨i, hi2⟩) hfl has ho]
      exact hsw
    obtain ⟨pv, hpv, hov⟩ := var_obs_some ho hwp
    have hmem : s.vars.get ⟨i, hi2⟩ ∈ s.vars := List.get_mem s.vars i hi2
    have := (marshal_ok_iff hp s.vars).mp hok (s.vars.get ⟨i, hi2⟩) hmem hswv pv hpv
    rw [marshalled_of_objVal hov]
    exact this
  obtain ⟨hops1, _⟩ := sync_vars_spec (clone_vars s.vars hp).1 (clone_vars s.vars hp).2
    msg hndc hokc
  obtain ⟨hops2, _⟩ := sync_vars_spec s.vars hp msg hnd hok
  refine ⟨hlen, ?_, ?_⟩
  · intro i hi
    have hi1 : i < (clone_vars s.vars hp).1.length := by omega
    obtain ⟨hha, hfl, has, ho, _⟩ := hfaget i hi1 hi
    rw [List.getD_eq_getElem _ _ hi1, List.getD_eq_getElem _ _ hi]
    exact ⟨hha, hfl, has, var_obs_none_iff ho⟩
  · show (sync_vars (clone_vars s.vars hp).1 (clone_vars s.vars hp).2 msg).1 =
      (sync_vars s.vars hp msg).1
    rw [hops1, hops2]
    apply flatMap_eq_of_forall2
    rw [List.forall₂_iff_get]
    refine ⟨hfalen, ?_⟩
    intro i h1 h2
    obtain ⟨hha, hfl, has, ho, _⟩ := hfaget i h1 h2
    exact sync_op_of_congr hp (clone_vars s.vars hp).2 _ _ hha hfl has ho

theorem clone_preserves_flags_and_sync_witness :
    (exScopeA.write_protected = true ∧
     PtrsValid exHeapA exScopeA.vars ∧
     (exScopeA.vars.filterMap (fun v => v.value)).Nodup ∧
     MarshalOk exHeapA exScopeA.vars) ∧
    ((filterx_scope_make_writable exScopeA exHeapA).1.vars.length =
      exScopeA.vars.length ∧
     (∀ i, i < exScopeA.vars.length →
       ((filterx_scope_make_writable exScopeA exHeapA).1.vars.getD i default).handle =
         (exScopeA.vars.getD i default).handle ∧
       ((filterx_scope_make_writable exScopeA exHeapA).1.vars.getD i default).floating =
         (exScopeA.vars.getD i default).floating ∧
       ((filterx_scope_make_writable exScopeA exHeapA).1.vars.getD i default).assigned =
         (exScopeA.vars.getD i default).assigned ∧
       (((filterx_scope_make_writable exScopeA exHeapA).1.vars.getD i default).value =
           none ↔ (exScopeA.vars.getD i default).value = none)) ∧
     (filterx_scope_sync_to_message (filterx_scope_make_writable exScopeA exHeapA).1
         (filterx_scope_make_writable exScopeA exHeapA).2 exMsgA).1 =
       (filterx_scope_sync_to_message exScopeA exHeapA exMsgA).1) :=
  ⟨⟨by decide, by decide, by decide, by decide⟩,
   clone_preserves_flags_and_sync exScopeA exHeapA exMsgA
     (by decide) (by decide) (by decide) (by decide)⟩

/-! The expression layer: _eval, _unset, _assign. -/

/-- Unconditional bounds for the binary search result (these justify the insertion
g_asserts in the source even without the sortedness invariant). -/
theorem lookup_loop_bounds (vars : List FilterXVariable) (handle : Nat) :
    ∀ l h : Int, 0 ≤ l → l ≤ (vars.length : Int) → h < (vars.length : Int) →
      0 ≤ (lookup_loop vars handle l h).2 ∧
      (lookup_loop vars handle l h).2.toNat ≤ vars.length ∧
      ((lookup_loop vars handle l h).1 = true →
        (lookup_loop vars handle l h).2.toNat < vars.length) := by
  intro l h
  induction l, h using lookup_loop.induct vars handle with
  | case1 l h hle m m_elem hfound =>
    intro h0l hllen hhlen
    have hmdef : m = (l + h) / 2 := rfl
    have heq : lookup_loop vars handle l h = (true, m) := by
      rw [lookup_loop]
      simp only [if_pos hle, ← hmdef, if_pos hfound]
    rw [heq]
    refine ⟨by omega, by omega, fun _ => by omega⟩
  | case2 l h hle m m_elem hne hgt ih =>
    intro h0l hllen hhlen
    have hmdef : m = (l + h) / 2 := rfl
    have heq : lookup_loop vars handle l h = lookup_loop vars handle l (m - 1) := by
      rw [lookup_loop]
      simp only [← hmdef, if_pos hle, if_neg hne, if_pos hgt]
    rw [heq]
    exact ih h0l hllen (by omega)
  | case3 l h hle m m_elem hne hngt ih =>
    intro h0l hllen hhlen
    have hmdef : m = (l + h) / 2 := rfl
    have heq : lookup_loop vars handle l h = lookup_loop vars handle (m + 1) h := by
      rw [lookup_loop]
      simp only [← hmdef, if_pos hle, if_neg hne, if_neg hngt]
    rw [heq]
    exact ih (by omega) (by omega) hhlen
  | case4 l h hnle =>
    intro h0l hllen hhlen
    have heq : lookup_loop vars handle l h = (false, l) := by
      rw [lookup_loop]
      simp only [if_neg hnle]
    rw [heq]
    refine ⟨h0l, by omega, fun habs => by simp at habs⟩

theorem lookup_variable_bounds (s : FilterXScope) (handle : Nat) :
    0 ≤ (_lookup_variable s handle).2 ∧
    (_lookup_variable s handle).2.toNat ≤ s.vars.length ∧
    ((_lookup_variable s handle).1 = true →
      (_lookup_variable s handle).2.toNat < s.vars.length) :=
  lookup_loop_bounds s.vars handle 0 ((s.vars.length : Int) - 1)
    (by omega) (by omega) (by omega)

/-- Registering a handle missed by lookup grows the table by one, the fresh slot is
exactly the registered variable (returned index included), and every slot is either
the fresh one or an original one. -/
theorem register_fresh_mem (s : FilterXScope) (hp : Heap) (handle : Nat) (fl : Bool)
    (init : Option Nat)
    (hn : filterx_scope_lookup_variable s handle = none) :
    (filterx_scope_register_variable s hp handle fl init).1.vars.length =
      s.vars.length + 1 ∧
    (filterx_scope_register_variable s hp handle fl init).2.2 ≤ s.vars.length ∧
    (filterx_scope_register_variable s hp handle fl init).1.vars.getD
        (filterx_scope_register_variable s hp handle fl init).2.2 default =
      ⟨handle, fl, false, init⟩ ∧
    (⟨handle, fl, false, init⟩ : FilterXVariable) ∈
      (filterx_scope_register_variable s hp handle fl init).1.vars ∧
    (∀ w ∈ (filterx_scope_register_variable s hp handle fl init).1.vars,
      w = ⟨handle, fl, false, init⟩ ∨ w ∈ s.vars) ∧
    (filterx_scope_register_variable s hp handle fl init).2.1 =
      filterx_object_ref hp init ∧
    (filterx_scope_register_variable s hp handle fl init).1.write_protected =
      s.write_protected := by
  have hb := lookup_variable_bounds s handle
  rw [register_fresh s hp handle fl init hn]
  dsimp only
  have hle : (_lookup_variable s handle).2.toNat ≤ s.vars.length := hb.2.1
  have hlen : (s.vars.insertIdx (_lookup_variable s handle).2.toNat
      (⟨handle, fl, false, init⟩ : FilterXVariable)).length = s.vars.length + 1 :=
    List.length_insertIdx _ _ hle
  refine ⟨hlen, hle, ?_, ?_, ?_, rfl, rfl⟩
  · have hlt : (_lookup_variable s handle).2.toNat <
        (s.vars.insertIdx (_lookup_variable s handle).2.toNat
          (⟨handle, fl, false, init⟩ : FilterXVariable)).length := by omega
    rw [List.getD_eq_getElem _ _ hlt]
    exact List.getElem_insertIdx_self s.vars _ _ hle
  · exact (List.mem_insertIdx hle).mpr (Or.inl rfl)
  · intro w hw
    exact (List.mem_insertIdx hle).mp hw

/-- C2: reading through the lazy field reference.  If the Scope already has a
Variable for the handle, its value (possibly absent, meaning not set) is returned
with a reference and the Scope is unchanged.  Otherwise, if the Record has no value
for the handle, absent is returned with Scope and heap unchanged (nothing is
registered).  Otherwise the Record value is wrapped as a fresh immutable message
Value (borrowing bytes and type), registered as a non-floating Variable with that
initial value, and returned. -/
theorem eval_lazy_binding (self : FilterXMessageRefExpr) (s : FilterXScope)
    (hp : Heap) (msg : Record) :
    (∀ idx, filterx_scope_lookup_variable s self.handle = some idx →
      _eval self s hp msg =
        ((s.vars.getD idx default).value, s,
         filterx_object_ref hp (s.vars.getD idx default).value)) ∧
    (filterx_scope_lookup_variable s self.handle = none →
      log_msg_get_value_if_set_with_type msg self.handle = none →
      _eval self s hp msg = (none, s, hp)) ∧
    (∀ bytes t, filterx_scope_lookup_variable s self.handle = none →
      log_msg_get_value_if_set_with_type msg self.handle = some (bytes, t) →
      (_eval self s hp msg).1 = some hp.length ∧
      heapGet (_eval self s hp msg).2.2 hp.length =
        ⟨false, false, some (bytes, t), 2⟩ ∧
      (⟨self.handle, false, false, some hp.length⟩ : FilterXVariable) ∈
        (_eval self s hp msg).2.1.vars ∧
      (_eval self s hp msg).2.1.vars.length = s.vars.length + 1 ∧
      (∀ w ∈ (_eval self s hp msg).2.1.vars,
        w = ⟨self.handle, false, false, some hp.length⟩ ∨ w ∈ s.vars)) := by
  refine ⟨?_, ?_, ?_⟩
  · intro idx hf
    simp only [_eval, hf, filterx_variable_get_value]
  · intro hn hmiss
    simp only [_eval, hn, _pull_variable_from_message, hmiss]
  · intro bytes t hn hhit
    have hreg := register_fresh_mem s (hp ++ [⟨false, false, some (bytes, t), 1⟩])
      self.handle false (some hp.length) hn
    obtain ⟨hlen, hle, hgetD, hmem, hall, hheap, hwp⟩ := hreg
    have hunf : _eval self s hp msg =
        (some hp.length,
         (filterx_scope_register_variable s (hp ++ [⟨false, false, some (bytes, t), 1⟩])
           self.handle false (some hp.length)).1,
         (filterx_scope_register_variable s (hp ++ [⟨false, false, some (bytes, t), 1⟩])
           self.handle false (some hp.length)).2.1) := by
      simp only [_eval, hn, _pull_variable_from_message, hhit,
        filterx_message_value_new_borrowed]
    rw [hunf]
    refine ⟨rfl, ?_, hmem, hlen, hall⟩
    rw [hheap]
    have hlt : hp.length < (hp ++ [(⟨false, false, some (bytes, t), 1⟩ : ObjData)] :
        Heap).length := by
      simp
    show heapGet (filterx_object_ref (hp ++ [⟨false, false, some (bytes, t), 1⟩])
      (some hp.length)) hp.length = ⟨false, false, some (bytes, t), 2⟩
    rw [filterx_object_ref]
    rw [heapGet_heapSet_self _ _ _ hlt, heapGet_append_self]

theorem eval_lazy_binding_witness :
    (filterx_scope_lookup_variable ⟨[⟨4, false, false, some 0⟩], [], false⟩ 2 = none ∧
     log_msg_get_value_if_set_with_type [(2, ([9, 9], 5))] 2 = some ([9, 9], 5)) ∧
    ((∀ idx, filterx_scope_lookup_variable ⟨[⟨4, false, false, some 0⟩], [], false⟩ 2 =
        some idx →
      _eval ⟨2⟩ ⟨[⟨4, false, false, some 0⟩], [], false⟩ [⟨false, false, some ([1], 1), 1⟩]
          [(2, ([9, 9], 5))] =
        (((⟨[⟨4, false, false, some 0⟩], [], false⟩ :
            FilterXScope).vars.getD idx default).value,
         ⟨[⟨4, false, false, some 0⟩], [], false⟩,
         filterx_object_ref [⟨false, false, some ([1], 1), 1⟩]
           ((⟨[⟨4, false, false, some 0⟩], [], false⟩ :
             FilterXScope).vars.getD idx default).value)) ∧
     (filterx_scope_lookup_variable ⟨[⟨4, false, false, some 0⟩], [], false⟩ 2 = none →
      log_msg_get_value_if_set_with_type [(2, ([9, 9], 5))] 2 = none →
      _eval ⟨2⟩ ⟨[⟨4, false, false, some 0⟩], [], false⟩ [⟨false, false, some ([1], 1), 1⟩]
          [(2, ([9, 9], 5))] =
        (none, ⟨[⟨4, false, false, some 0⟩], [], false⟩,
         [⟨false, false, some ([1], 1), 1⟩])) ∧
     (∀ bytes t, filterx_scope_lookup_variable ⟨[⟨4, false, false, some 0⟩], [], false⟩ 2 =
        none →
      log_msg_get_value_if_set_with_type [(2, ([9, 9], 5))] 2 = some (bytes, t) →
      (_eval ⟨2⟩ ⟨[⟨4, false, false, some 0⟩], [], false⟩
          [⟨false, false, some ([1], 1), 1⟩] [(2, ([9, 9], 5))]).1 =
        some ([⟨false, false, some ([1], 1), 1⟩] : Heap).length ∧
      heapGet (_eval ⟨2⟩ ⟨[⟨4, false, false, some 0⟩], [], false⟩
          [⟨false, false, some ([1], 1), 1⟩] [(2, ([9, 9], 5))]).2.2
          ([⟨false, false, some ([1], 1), 1⟩] : Heap).length =
        ⟨false, false, some (bytes, t), 2⟩ ∧
      (⟨2, false, false, some ([⟨false, false, some ([1], 1), 1⟩] : Heap).length⟩ :
          FilterXVariable) ∈
        (_eval ⟨2⟩ ⟨[⟨4, false, false, some 0⟩], [], false⟩
          [⟨false, false, some ([1], 1), 1⟩] [(2, ([9, 9], 5))]).2.1.vars ∧
      (_eval ⟨2⟩ ⟨[⟨4, false, false, some 0⟩], [], false⟩
          [⟨false, false, some ([1], 1), 1⟩] [(2, ([9, 9], 5))]).2.1.vars.length =
        (⟨[⟨4, false, false, some 0⟩], [], false⟩ : FilterXScope).vars.length + 1 ∧
      (∀ w ∈ (_eval ⟨2⟩ ⟨[⟨4, false, false, some 0⟩], [], false⟩
          [⟨false, false, some ([1], 1), 1⟩] [(2, ([9, 9], 5))]).2.1.vars,
        w = ⟨2, false, false, some ([⟨false, false, some ([1], 1), 1⟩] : Heap).length⟩ ∨
        w ∈ (⟨[⟨4, false, false, some 0⟩], [], false⟩ : FilterXScope).vars))) :=
  ⟨⟨by simp [filterx_scope_lookup_variable, _lookup_variable, lookup_loop], by decide⟩,
   eval_lazy_binding ⟨2⟩ ⟨[⟨4, false, false, some 0⟩], [], false⟩
     [⟨false, false, some ([1], 1), 1⟩] [(2, ([9, 9], 5))]⟩

/-- C5: clear through the lazy reference is total and always succeeds (TRUE in
every case) and never touches the Record (the Record component is returned
unchanged unconditionally).  With an existing Variable it unsets that variable
(absent value; the Record is not touched).  With no Variable and the Record field
set, it registers a non-floating whiteout Variable with an absent value, leaving
the heap and Record unchanged.  With no Variable and the Record field unset, it
changes nothing. -/
theorem unset_whiteout_total (self : FilterXMessageRefExpr) (s : FilterXScope)
    (hp : Heap) (msg : Record) :
    (_unset self s hp msg).1 = true ∧
    (_unset self s hp msg).2.2.2 = msg ∧
    (∀ idx, filterx_scope_lookup_variable s self.handle = some idx →
      _unset self s hp msg =
        (true,
         { s with vars := (s.vars.set idx
             { s.vars.getD idx default with value := none, assigned := true }) },
         filterx_object_unref hp (s.vars.getD idx default).value, msg)) ∧
    (filterx_scope_lookup_variable s self.handle = none →
      log_msg_is_value_set msg self.handle = true →
      (_unset self s hp msg).2.2.1 = hp ∧
      (⟨self.handle, false, false, none⟩ : FilterXVariable) ∈
        (_unset self s hp msg).2.1.vars ∧
      (_unset self s hp msg).2.1.vars.length = s.vars.length + 1 ∧
      (∀ w ∈ (_unset self s hp msg).2.1.vars,
        w = ⟨self.handle, false, false, none⟩ ∨ w ∈ s.vars)) ∧
    (filterx_scope_lookup_variable s self.handle = none →
      log_msg_is_value_set msg self.handle = false →
      _unset self s hp msg = (true, s, hp, msg)) := by
  refine ⟨?_, ?_, ?_, ?_, ?_⟩
  · cases hl : filterx_scope_lookup_variable s self.handle with
    | some idx => simp only [_unset, hl]
    | none =>
      by_cases hset : log_msg_is_value_set msg self.handle = true
      · simp only [_unset, hl, hset, if_true]
      · simp only [_unset, hl]
        rw [if_neg (by simpa using hset)]
  · cases hl : filterx_scope_lookup_variable s self.handle with
    | some idx => simp only [_unset, hl]
    | none =>
      by_cases hset : log_msg_is_value_set msg self.handle = true
      · simp only [_unset, hl, hset, if_true, _whiteout_variable]
      · simp only [_unset, hl]
        rw [if_neg (by simpa using hset)]
  · intro idx hf
    simp only [_unset, hf, filterx_variable_unset_value, filterx_variable_set_value,
      filterx_object_ref]
  · intro hn hset
    obtain ⟨hlen, hle, hgetD, hmem, hall, hheap, hwp⟩ :=
      register_fresh_mem s hp self.handle false none hn
    have hunf : _unset self s hp msg =
        (true, (filterx_scope_register_variable s hp self.handle false none).1,
         (filterx_scope_register_variable s hp self.handle false none).2.1, msg) := by
      simp only [_unset, hn, hset, if_true, _whiteout_variable]
    rw [hunf]
    exact ⟨hheap, hmem, hlen, hall⟩
  · intro hn hset
    simp only [_unset, hn]
    rw [if_neg (by simp [hset])]

theorem unset_whiteout_total_witness :
    (filterx_scope_lookup_variable ⟨[⟨4, false, false, some 0⟩], [], false⟩ 2 = none ∧
     log_msg_is_value_set [(2, ([9], 5))] 2 = true) ∧
    ((_unset ⟨2⟩ ⟨[⟨4, false, false, some 0⟩], [], false⟩
        [⟨false, false, some ([1], 1), 1⟩] [(2, ([9], 5))]).1 = true ∧
     (_unset ⟨2⟩ ⟨[⟨4, false, false, some 0⟩], [], false⟩
        [⟨false, false, some ([1], 1), 1⟩] [(2, ([9], 5))]).2.2.2 = [(2, ([9], 5))] ∧
     (∀ idx, filterx_scope_lookup_variable ⟨[⟨4, false, false, some 0⟩], [], false⟩ 2 =
        some idx →
      _unset ⟨2⟩ ⟨[⟨4, false, false, some 0⟩], [], false⟩
          [⟨false, false, some ([1], 1), 1⟩] [(2, ([9], 5))] =
        (true,
         { (⟨[⟨4, false, false, some 0⟩], [], false⟩ : FilterXScope) with
             vars := ((⟨[⟨4, false, false, some 0⟩], [], false⟩ :
                 FilterXScope).vars.set idx
               { (⟨[⟨4, false, false, some 0⟩], [], false⟩ :
                   FilterXScope).vars.getD idx default with
                   value := none, assigned := true }) },
         filterx_object_unref [⟨false, false, some ([1], 1), 1⟩]
           ((⟨[⟨4, false, false, some 0⟩], [], false⟩ :
             FilterXScope).vars.getD idx default).value, [(2, ([9], 5))])) ∧
     (filterx_scope_lookup_variable ⟨[⟨4, false, false, some 0⟩], [], false⟩ 2 = none →
      log_msg_is_value_set [(2, ([9], 5))] 2 = true →
      (_unset ⟨2⟩ ⟨[⟨4, false, false, some 0⟩], [], false⟩
          [⟨false, false, some ([1], 1), 1⟩] [(2, ([9], 5))]).2.2.1 =
        [⟨false, false, some ([1], 1), 1⟩] ∧
      (⟨2, false, false, none⟩ : FilterXVariable) ∈
        (_unset ⟨2⟩ ⟨[⟨4, false, false, some 0⟩], [], false⟩
          [⟨false, false, some ([1], 1), 1⟩] [(2, ([9], 5))]).2.1.vars ∧
      (_unset ⟨2⟩ ⟨[⟨4, false, false, some 0⟩], [], false⟩
          [⟨false, false, some ([1], 1), 1⟩] [(2, ([9], 5))]).2.1.vars.length =
        (⟨[⟨4, false, false, some 0⟩], [], false⟩ : FilterXScope).vars.length + 1 ∧
      (∀ w ∈ (_unset ⟨2⟩ ⟨[⟨4, false, false, some 0⟩], [], false⟩
          [⟨false, false, some ([1], 1), 1⟩] [(2, ([9], 5))]).2.1.vars,
        w = ⟨2, false, false, none⟩ ∨
        w ∈ (⟨[⟨4, false, false, some 0⟩], [], false⟩ : FilterXScope).vars)) ∧
     (filterx_scope_lookup_variable ⟨[⟨4, false, false, some 0⟩], [], false⟩ 2 = none →
      log_msg_is_value_set [(2, ([9], 5))] 2 = false →
      _unset ⟨2⟩ ⟨[⟨4, false, false, some 0⟩], [], false⟩
          [⟨false, false, some ([1], 1), 1⟩] [(2, ([9], 5))] =
        (true, ⟨[⟨4, false, false, some 0⟩], [], false⟩,
         [⟨false, false, some ([1], 1), 1⟩], [(2, ([9], 5))]))) :=
  ⟨⟨by simp [filterx_scope_lookup_variable, _lookup_variable, lookup_loop], by decide⟩,
   unset_whiteout_total ⟨2⟩ ⟨[⟨4, false, false, some 0⟩], [], false⟩
     [⟨false, false, some ([1], 1), 1⟩] [(2, ([9], 5))]⟩

theorem getD_set_self (l : List FilterXVariable) (i : Nat) (a : FilterXVariable)
    (h : i < l.length) : (l.set i a).getD i default = a := by
  rw [List.getD_eq_getElem _ _ (by simpa using h)]
  exact List.getElem_set_self _

/-- Facts about the scope handed to a mutating expression: it is sorted, its
pointers are valid, it is not write-protected, the heap only grew value-preserving,
and a handle absent from the original scope is absent from it. -/
theorem make_writable_props (s : FilterXScope) (hp : Heap)
    (hs : SortedVars s.vars) (hvalid : PtrsValid hp s.vars) :
    SortedVars (filterx_scope_make_writable s hp).1.vars ∧
    PtrsValid (filterx_scope_make_writable s hp).2
      (filterx_scope_make_writable s hp).1.vars ∧
    hp.length ≤ (filterx_scope_make_writable s hp).2.length ∧
    (∀ q, q < hp.length →
      objVal (heapGet (filterx_scope_make_writable s hp).2 q) =
        objVal (heapGet hp q)) ∧
    (filterx_scope_make_writable s hp).1.write_protected = false ∧
    (∀ h0, filterx_scope_lookup_variable s h0 = none →
      filterx_scope_lookup_variable (filterx_scope_make_writable s hp).1 h0 = none) := by
  cases hw : s.write_protected with
  | false =>
    have hmw : filterx_scope_make_writable s hp = (s, hp) := by
      simp [filterx_scope_make_writable, hw]
    rw [hmw]
    exact ⟨hs, hvalid, le_refl _, fun q _ => rfl, hw, fun h0 hn => hn⟩
  | true =>
    have hmw : filterx_scope_make_writable s hp = filterx_scope_clone s hp := by
      simp [filterx_scope_make_writable, hw]
    have hcl : filterx_scope_clone s hp =
        ({ vars := (clone_vars s.vars hp).1, weak_refs := [], write_protected := false },
         (clone_vars s.vars hp).2) := by
      simp [filterx_scope_clone, filterx_scope_new]
    rw [hmw, hcl]
    dsimp only
    obtain ⟨hlen, hle, hobs, hfa⟩ := clone_vars_spec s.vars hp hvalid
    have hmap : (clone_vars s.vars hp).1.map (fun v => v.handle) =
        s.vars.map (fun v => v.handle) := by
      apply map_handle_eq_of_forall2
      rw [List.forall₂_iff_get] at hfa ⊢
      exact ⟨hfa.1, fun i h1 h2 => (hfa.2 i h1 h2).1⟩
    have hsorted : SortedVars (clone_vars s.vars hp).1 := by
      have h1 : ((clone_vars s.vars hp).1.map (fun v => v.handle)).Pairwise (· < ·) := by
        rw [hmap, List.pairwise_map]
        exact hs
      rw [List.pairwise_map] at h1
      exact h1
    have hvalidc : PtrsValid (clone_vars s.vars hp).2 (clone_vars s.vars hp).1 := by
      rw [ptrs_valid_iff]
      intro w hw2 p2 hp2
      obtain ⟨i, hi, hwi⟩ := List.mem_iff_getElem.mp hw2
      rw [List.forall₂_iff_get] at hfa
      have hi2 : i < s.vars.length := by omega
      obtain ⟨_, _, _, _, hcl2⟩ := hfa.2 i hi hi2
      have : ((clone_vars s.vars hp).1.get ⟨i, hi⟩).value = some p2 := by
        show ((clone_vars s.vars hp).1)[i].value = some p2
        rw [hwi]
        exact hp2
      exact (hcl2 p2 this).1
    refine ⟨hsorted, hvalidc, hle, hobs, rfl, ?_⟩
    intro h0 hn
    rw [lookup_none_iff _ h0 hs] at hn
    rw [lookup_none_iff _ h0 hsorted]
    show h0 ∉ (clone_vars s.vars hp).1.map (fun v => v.handle)
    rw [hmap]
    exact hn

theorem filterx_object_ref_none (hp : Heap) : filterx_object_ref hp none = hp := rfl

theorem heapGet_unref_other (H : Heap) (o : Option Nat) (q : Nat)
    (h : ∀ r, o = some r → r ≠ q) :
    heapGet (filterx_object_unref H o) q = heapGet H q := by
  cases ho : o with
  | none => rfl
  | some r => exact heapGet_heapSet_ne H r q _ (h r ho)

/-- The clone of a valid pointer: a pointer to a value-equal object; a fresh
address holding one reference when the object is mutable. -/
theorem clone_some_spec (pH : Heap) (nv : Nat) (hnv : nv < pH.length) :
    ∃ cv, (filterx_object_clone pH (some nv)).2 = some cv ∧
      cv < (filterx_object_clone pH (some nv)).1.length ∧
      pH.length ≤ (filterx_object_clone pH (some nv)).1.length ∧
      objVal (heapGet (filterx_object_clone pH (some nv)).1 cv) =
        objVal (heapGet pH nv) ∧
      ((heapGet pH nv).is_mutable = true →
        cv = pH.length ∧ (heapGet (filterx_object_clone pH (some nv)).1 cv).refcnt = 1) := by
  by_cases hm : (heapGet pH nv).is_mutable = true
  · have hc : filterx_object_clone pH (some nv) =
        (pH ++ [{ is_mutable := (heapGet pH nv).is_mutable, modified_in_place := (heapGet pH nv).modified_in_place, marshalled := (heapGet pH nv).marshalled, refcnt := 1 }], some pH.length) := by
      simp [filterx_object_clone, hm]
    rw [hc]
    dsimp only
    refine ⟨pH.length, rfl, by simp, by simp, ?_, fun _ => ⟨rfl, ?_⟩⟩
    · rw [heapGet_append_self]
      rfl
    · rw [heapGet_append_self]
  · have hmf : (heapGet pH nv).is_mutable = false := by
      cases hb : (heapGet pH nv).is_mutable
      · rfl
      · exact absurd hb hm
    have hc : filterx_object_clone pH (some nv) =
        (filterx_object_ref pH (some nv), some nv) := by
      simp [filterx_object_clone, hmf]
    rw [hc]
    dsimp only
    refine ⟨nv, rfl, ?_, ?_, objVal_ref pH (some nv) nv, fun habs => absurd habs hm⟩
    · rw [filterx_object_ref_length]
      exact hnv
    · rw [filterx_object_ref_length]

/-- After set_value's unref/ref pair and the release of the clone's extra
reference, the stored address keeps its reference count, provided the replaced
value was a different address. -/
theorem refcnt_after_store (c1 : Heap) (oldv : Option Nat) (cv : Nat)
    (hcl : cv < c1.length)
    (hold : ∀ r, oldv = some r → r ≠ cv) :
    (heapGet (filterx_object_unref (filterx_object_ref
        (filterx_object_unref c1 oldv) (some cv)) (some cv)) cv).refcnt =
      (heapGet c1 cv).refcnt := by
  have h1 : heapGet (filterx_object_unref c1 oldv) cv = heapGet c1 cv :=
    heapGet_unref_other c1 oldv cv hold
  have hlen1 : (filterx_object_unref c1 oldv).length = c1.length :=
    filterx_object_unref_length c1 oldv
  have h2 : heapGet (filterx_object_ref (filterx_object_unref c1 oldv) (some cv)) cv =
      { heapGet (filterx_object_unref c1 oldv) cv with
        refcnt := (heapGet (filterx_object_unref c1 oldv) cv).refcnt + 1 } :=
    heapGet_heapSet_self _ _ _ (by rw [hlen1]; exact hcl)
  have hlen2 : (filterx_object_ref (filterx_object_unref c1 oldv) (some cv)).length =
      c1.length := by rw [filterx_object_ref_length, hlen1]
  have h3 : heapGet (filterx_object_unref (filterx_object_ref
      (filterx_object_unref c1 oldv) (some cv)) (some cv)) cv =
      { heapGet (filterx_object_ref (filterx_object_unref c1 oldv) (some cv)) cv with
        refcnt := (heapGet (filterx_object_ref
          (filterx_object_unref c1 oldv) (some cv)) cv).refcnt - 1 } :=
    heapGet_heapSet_self _ _ _ (by rw [hlen2]; exact hcl)
  rw [h3, h2, h1]
  simp

/-- The unref/ref/unref sequence around set_value preserves observable values
everywhere. -/
theorem objVal_after_store (c1 : Heap) (oldv c2 : Option Nat) (q : Nat) :
    objVal (heapGet (filterx_object_unref (filterx_object_ref
      (filterx_object_unref c1 oldv) c2) c2) q) = objVal (heapGet c1 q) := by
  rw [objVal_unref, objVal_ref, objVal_unref]

/-- C4: writing new_value through the lazy reference first obtains an exclusively
owned Scope via make_writable (the evaluation layer's COW gate, modelled from the
spec as filterx_eval_get_scope; in particular the resulting Scope is never
write-protected); registers a fresh non-floating slot with an absent initial value
when the handle has no Variable; stores a clone of new_value in the slot with the
assigned flag set (value-equal to new_value; at a fresh address distinct from the
caller's pointer and holding exactly one reference when new_value is mutable, the
extra clone reference having been released); and reports success. -/
theorem assign_stores_clone (self : FilterXMessageRefExpr) (s : FilterXScope)
    (hp : Heap) (new_value : Nat)
    (hs : SortedVars s.vars) (hvalid : PtrsValid hp s.vars)
    (hnv : new_value < hp.length) :
    (_assign self s hp new_value).1 = true ∧
    (_assign self s hp new_value).2.1.write_protected = false ∧
    (∃ idx c, idx < (_assign self s hp new_value).2.1.vars.length ∧
      ((_assign self s hp new_value).2.1.vars.getD idx default).handle = self.handle ∧
      ((_assign self s hp new_value).2.1.vars.getD idx default).assigned = true ∧
      ((_assign self s hp new_value).2.1.vars.getD idx default).value = some c ∧
      objVal (heapGet (_assign self s hp new_value).2.2 c) =
        objVal (heapGet hp new_value) ∧
      (filterx_scope_lookup_variable s self.handle = none →
        ((_assign self s hp new_value).2.1.vars.getD idx default).floating = false) ∧
      ((heapGet hp new_value).is_mutable = true →
        c ≠ new_value ∧ (heapGet (_assign self s hp new_value).2.2 c).refcnt = 1)) := by
  obtain ⟨gs, gvalid, glen, gobs, gwp, glknone⟩ := make_writable_props s hp hs hvalid
  have gvalid2 := (ptrs_valid_iff _ _).mp gvalid
  have hnv2 : new_value < (filterx_scope_make_writable s hp).2.length := by omega
  obtain ⟨cv, hcv, hcvlt, hcvle, hcvobj, hcvmut⟩ :=
    clone_some_spec (filterx_scope_make_writable s hp).2 new_value hnv2
  have hmuteq : (heapGet (filterx_scope_make_writable s hp).2 new_value).is_mutable =
      (heapGet hp new_value).is_mutable :=
    mutable_of_objVal (gobs new_value hnv)
  rcases hlg : filterx_scope_lookup_variable
      (filterx_scope_make_writable s hp).1 self.handle with _ | idx0
  · -- no variable: a fresh non-floating slot is registered first
    obtain ⟨hrlen, hrle, hrgetD, hrmem, hrall, hrheap, hrwp⟩ :=
      register_fresh_mem (filterx_scope_make_writable s hp).1
        (filterx_scope_make_writable s hp).2 self.handle false none hlg
    rw [filterx_object_ref_none] at hrheap
    simp only [_assign, filterx_eval_get_scope, hlg]
    refine ⟨by trivial, ?_, ?_⟩
    · show (filterx_scope_register_variable (filterx_scope_make_writable s hp).1
          (filterx_scope_make_writable s hp).2 self.handle false
          none).1.write_protected = false
      rw [hrwp]
      exact gwp
    · refine ⟨(filterx_scope_register_variable (filterx_scope_make_writable s hp).1
          (filterx_scope_make_writable s hp).2 self.handle false none).2.2, cv,
        ?_, ?_⟩
      · show (filterx_scope_register_variable (filterx_scope_make_writable s hp).1
            (filterx_scope_make_writable s hp).2 self.handle false none).2.2 <
          ((filterx_scope_register_variable (filterx_scope_make_writable s hp).1
            (filterx_scope_make_writable s hp).2 self.handle false
            none).1.vars.set _ _).length
        rw [List.length_set]
        omega
      · rw [hrheap, hcv]
        have hgd := getD_set_self
          (filterx_scope_register_variable (filterx_scope_make_writable s hp).1
            (filterx_scope_make_writable s hp).2 self.handle false none).1.vars
          (filterx_scope_register_variable (filterx_scope_make_writable s hp).1
            (filterx_scope_make_writable s hp).2 self.handle false none).2.2
          { (filterx_scope_register_variable (filterx_scope_make_writable s hp).1
              (filterx_scope_make_writable s hp).2 self.handle false
              none).1.vars.getD
              (filterx_scope_register_variable (filterx_scope_make_writable s hp).1
                (filterx_scope_make_writable s hp).2 self.handle false none).2.2
              default with
            value := some cv, assigned := true }
          (by omega)
        rw [filterx_variable_set_value]
        dsimp only
        rw [hgd, hrgetD]
        refine ⟨rfl, rfl, rfl, ?_, fun _ => rfl, ?_⟩
        · rw [objVal_after_store, hcvobj]
          exact gobs new_value hnv
        · intro hmut
          obtain ⟨hcveq, hcvrc⟩ := hcvmut (by rw [hmuteq]; exact hmut)
          refine ⟨by omega, ?_⟩
          rw [refcnt_after_store _ _ _ hcvlt (fun r hr => Option.noConfusion hr)]
          exact hcvrc
  · -- the variable exists: its slot is reused
    obtain ⟨hidxlen, hidxat⟩ := lookup_found_spec _ self.handle gs idx0 hlg
    have holdmem : (filterx_scope_make_writable s hp).1.vars.getD idx0 default ∈
        (filterx_scope_make_writable s hp).1.vars := by
      rw [List.getD_eq_getElem _ _ hidxlen]
      exact List.getElem_mem hidxlen
    have holdval : ∀ r, ((filterx_scope_make_writable s hp).1.vars.getD idx0
        default).value = some r → r < (filterx_scope_make_writable s hp).2.length :=
      fun r hr => gvalid2 _ holdmem r hr
    simp only [_assign, filterx_eval_get_scope, hlg]
    refine ⟨by trivial, by exact gwp, idx0, cv, ?_, ?_⟩
    · show idx0 < ((filterx_scope_make_writable s hp).1.vars.set _ _).length
      rw [List.length_set]
      exact hidxlen
    · rw [hcv]
      have hgd := getD_set_self (filterx_scope_make_writable s hp).1.vars idx0
        { (filterx_scope_make_writable s hp).1.vars.getD idx0 default with
          value := some cv, assigned := true } hidxlen
      rw [filterx_variable_set_value]
      dsimp only
      rw [hgd]
      refine ⟨hidxat, rfl, rfl, ?_, ?_, ?_⟩
      · rw [objVal_after_store, hcvobj]
        exact gobs new_value hnv
      · intro hnone
        exact absurd hlg (by rw [glknone self.handle hnone]; simp)
      · intro hmut
        obtain ⟨hcveq, hcvrc⟩ := hcvmut (by rw [hmuteq]; exact hmut)
        refine ⟨by omega, ?_⟩
        rw [refcnt_after_store _ _ _ hcvlt
          (fun r hr => by rw [hcveq]; have := holdval r hr; omega)]
        exact hcvrc

theorem assign_stores_clone_witness :
    (SortedVars (⟨[⟨3, false, false, some 1⟩], [], false⟩ : FilterXScope).vars ∧
     PtrsValid [⟨true, false, some ([1], 1), 1⟩, ⟨false, false, some ([2], 2), 1⟩]
       (⟨[⟨3, false, false, some 1⟩], [], false⟩ : FilterXScope).vars ∧
     0 < ([⟨true, false, some ([1], 1), 1⟩, ⟨false, false, some ([2], 2), 1⟩] :
       Heap).length) ∧
    ((_assign ⟨3⟩ ⟨[⟨3, false, false, some 1⟩], [], false⟩
        [⟨true, false, some ([1], 1), 1⟩, ⟨false, false, some ([2], 2), 1⟩] 0).1 = true ∧
     (_assign ⟨3⟩ ⟨[⟨3, false, false, some 1⟩], [], false⟩
        [⟨true, false, some ([1], 1), 1⟩,
         ⟨false, false, some ([2], 2), 1⟩] 0).2.1.write_protected = false ∧
     (∃ idx c, idx < (_assign ⟨3⟩ ⟨[⟨3, false, false, some 1⟩], [], false⟩
          [⟨true, false, some ([1], 1), 1⟩,
           ⟨false, false, some ([2], 2), 1⟩] 0).2.1.vars.length ∧
       ((_assign ⟨3⟩ ⟨[⟨3, false, false, some 1⟩], [], false⟩
          [⟨true, false, some ([1], 1), 1⟩,
           ⟨false, false, some ([2], 2), 1⟩] 0).2.1.vars.getD idx default).handle =
         (⟨3⟩ : FilterXMessageRefExpr).handle ∧
       ((_assign ⟨3⟩ ⟨[⟨3, false, false, some 1⟩], [], false⟩
          [⟨true, false, some ([1], 1), 1⟩,
           ⟨false, false, some ([2], 2), 1⟩] 0).2.1.vars.getD idx default).assigned =
         true ∧
       ((_assign ⟨3⟩ ⟨[⟨3, false, false, some 1⟩], [], false⟩
          [⟨true, false, some ([1], 1), 1⟩,
           ⟨false, false, some ([2], 2), 1⟩] 0).2.1.vars.getD idx default).value =
         some c ∧
       objVal (heapGet (_assign ⟨3⟩ ⟨[⟨3, false, false, some 1⟩], [], false⟩
           [⟨true, false, some ([1], 1), 1⟩,
            ⟨false, false, some ([2], 2), 1⟩] 0).2.2 c) =
         objVal (heapGet [⟨true, false, some ([1], 1), 1⟩,
           ⟨false, false, some ([2], 2), 1⟩] 0) ∧
       (filterx_scope_lookup_variable ⟨[⟨3, false, false, some 1⟩], [], false⟩
           (⟨3⟩ : FilterXMessageRefExpr).handle = none →
         ((_assign ⟨3⟩ ⟨[⟨3, false, false, some 1⟩], [], false⟩
            [⟨true, false, some ([1], 1), 1⟩,
             ⟨false, false, some ([2], 2), 1⟩] 0).2.1.vars.getD idx default).floating =
           false) ∧
       ((heapGet [⟨true, false, some ([1], 1), 1⟩,
           ⟨false, false, some ([2], 2), 1⟩] 0).is_mutable = true →
         c ≠ 0 ∧
         (heapGet (_assign ⟨3⟩ ⟨[⟨3, false, false, some 1⟩], [], false⟩
            [⟨true, false, some ([1], 1), 1⟩,
             ⟨false, false, some ([2], 2), 1⟩] 0).2.2 c).refcnt = 1))) :=
  ⟨⟨by decide, by decide, by decide⟩,
   assign_stores_clone ⟨3⟩ ⟨[⟨3, false, false, some 1⟩], [], false⟩
     [⟨true, false, some ([1], 1), 1⟩, ⟨false, false, some ([2], 2), 1⟩] 0
     (by decide) (by decide) (by decide)⟩

end Filterx
